import Mathlib

/-!
Verification of the compound-feasibility analysis engine of the Elements
periodic-table application (`public/client.js`, methods `analyzeCompound`,
`analyzeBinaryCompound`, `analyzeMultiElementCompound`, `checkCommonCompounds`,
`gcd`, `analyzeUserFormula`, `validateChargeBalance`, `checkCommonPattern`).

Modelling conventions:
* JavaScript numbers used for electronegativity values are modelled as exact
  rationals (`ℚ`); the engine only subtracts, takes absolute values and maxima,
  and compares against the fixed thresholds 0.4 / 1.5 / 1.7 / 2.0.
* `Utils.getElectronegativity` lives outside the analysed sources; it is a
  read-only lookup by atomic number returning a value or `null`, so the engine
  is parameterised by a function `getEN : Nat → Option ℚ`.
* The absent/`null` `userSpecifiedCounts` argument and the empty list behave
  identically in the source (`userSpecifiedCounts && userSpecifiedCounts.length > 0`),
  so both are modelled as `[]`.
* A candidate's `oxidationStates` display string is interpolated by the source
  from (symbol, oxidation state, count) triples; the model carries both the
  rendered string (`oxInfo`) and the triples (`assignment`, the
  `oxidationAssignment` of the data model).
* `likelihood` and `bondType` are the exact strings the source uses.
-/

/-- An element record, restricted to the fields the engine reads.
`oxidationStates` is `none` when the field is absent (`undefined`/`null` in JS);
note the source treats an absent list and an empty list differently
(`el.oxidationStates || [0]` yields `[0]` for the former, `[]` for the latter). -/
structure Element where
  atomicNumber : Nat
  symbol : String
  name : String
  category : String
  oxidationStates : Option (List Int)
deriving DecidableEq, Repr

/-- One proposed formula: the rendered formula string, the rendered
oxidation-state display string, and the structured (symbol, oxidation state,
count) triples from which the source interpolates that display string. -/
structure Candidate where
  formula : String
  oxInfo : String
  assignment : List (String × Int × Nat)
deriving DecidableEq, Repr

instance : Inhabited Candidate := ⟨⟨"", "", []⟩⟩

/-- The analysis record returned by `analyzeCompound` and its helpers.
Fields the source omits on some branches (`enDiff`, `userSpecified`) are
`none` / `false` there. -/
structure CompoundAnalysis where
  likelihood : String
  formulas : List Candidate
  bondType : String
  reason : String
  elements : List Element
  enDiff : Option ℚ
  userSpecified : Bool
deriving DecidableEq, Repr

/-- Fuel-driven unfolding of the source's recursive `gcd(a, b) = b === 0 ? a : gcd(b, a % b)`;
the second argument strictly decreases, so `b + 1` steps of fuel always suffice
(`jsGcd_eq_gcd` below). -/
def jsGcdF : Nat → Nat → Nat → Nat
  | 0, a, _ => a
  | fuel + 1, a, b => if b = 0 then a else jsGcdF fuel b (a % b)

/-- `this.gcd` from the source, on the (nonnegative) absolute values it is applied to. -/
def jsGcd (a b : Nat) : Nat := jsGcdF (b + 1) a b

/-- `${ox > 0 ? '+' : ''}${ox}` -/
def signedOx (ox : Int) : String := (if ox > 0 then "+" else "") ++ toString ox

/-- `sym + (count > 1 ? count : '')` — subscript 1 elided. -/
def symWithCount (sym : String) (count : Nat) : String :=
  sym ++ (if count > 1 then toString count else "")

/-- `enDiff.toFixed(2)`: fixed two-decimal rendering.  The source formats an
IEEE double; the model rounds the exact rational to hundredths (the engine only
formats nonnegative differences).  No claim depends on these digits. -/
def fixed2 (q : ℚ) : String :=
  let n : Int := (q * 100 + 1 / 2).floor
  (if n < 0 then "-" else "") ++ toString (n.natAbs / 100) ++ "." ++
    (if n.natAbs % 100 < 10 then "0" else "") ++ toString (n.natAbs % 100)

/-- `(el.oxidationStates || [0]).filter(ox => ox !== 0)` (binary and
multi-element paths). -/
def nonZeroOx (e : Element) : List Int :=
  (e.oxidationStates.getD [0]).filter (fun ox => ox ≠ 0)

/-- `(ec.element.oxidationStates || []).filter(ox => ox !== 0)` (the
user-formula validator defaults to `[]`, not `[0]`). -/
def nonZeroOxV (e : Element) : List Int :=
  (e.oxidationStates.getD []).filter (fun ox => ox ≠ 0)

/-- `(ox_a > 0 && ox_b > 0) || (ox_a < 0 && ox_b < 0)` — the binary solver skips these pairs. -/
def sameSign (a b : Int) : Bool :=
  (decide (a > 0) && decide (b > 0)) || (decide (a < 0) && decide (b < 0))

/-- `(ox1 > 0 && ox2 < 0) || (ox1 < 0 && ox2 > 0)` — the fallback keeps these pairs. -/
def oppositeSign (a b : Int) : Bool :=
  (decide (a > 0) && decide (b < 0)) || (decide (a < 0) && decide (b > 0))

/-- `elements.sort((a, b) => a.atomicNumber - b.atomicNumber)`: the comparator's
order, ascending atomic number. -/
def elemLE (a b : Element) : Prop := a.atomicNumber ≤ b.atomicNumber

instance : DecidableRel elemLE := fun a b => Nat.decLe a.atomicNumber b.atomicNumber

instance : IsTotal Element elemLE := ⟨fun a b => Nat.le_total a.atomicNumber b.atomicNumber⟩

instance : IsTrans Element elemLE := ⟨fun _ _ _ h h' => Nat.le_trans h h'⟩

/-- The sort at the top of `analyzeCompound`. -/
def sortElems (l : List Element) : List Element := List.insertionSort elemLE l

/-- `elementCounts.sort((a, b) => a.element.atomicNumber - b.element.atomicNumber)`. -/
def countLE (a b : Element × Nat) : Prop := a.1.atomicNumber ≤ b.1.atomicNumber

instance : DecidableRel countLE := fun a b => Nat.decLe a.1.atomicNumber b.1.atomicNumber

instance : IsTotal (Element × Nat) countLE := ⟨fun a b => Nat.le_total a.1.atomicNumber b.1.atomicNumber⟩

instance : IsTrans (Element × Nat) countLE := ⟨fun _ _ _ h h' => Nat.le_trans h h'⟩

/-- The sort at the top of `analyzeUserFormula`. -/
def sortCounts (l : List (Element × Nat)) : List (Element × Nat) := List.insertionSort countLE l

/-- The `i < j` double loop collecting `Math.abs(en_i - en_j)` for every pair. -/
def pairDiffs : List ℚ → List ℚ
  | [] => []
  | x :: xs => (xs.map fun y => |x - y|) ++ pairDiffs xs

/-- `Math.max(...)` over a list; the engine only applies it to the nonempty
pair-difference lists arising from ≥ 2 elements (for the empty list JS yields
`-Infinity`, which falls into the same `≤ 0.4` classification branch as the
sentinel `0` used here). -/
def maxListQ : List ℚ → ℚ
  | [] => 0
  | x :: xs => xs.foldl max x

/-- The electronegativity-difference thresholds: `> 1.7` ionic, `> 0.4` polar
covalent, otherwise nonpolar covalent. -/
def classifyBond (d : ℚ) : String :=
  if d > 1.7 then "ionic" else if d > 0.4 then "polar covalent" else "nonpolar covalent"

/-- The noble-gas rationale: `` `${names} ${n>1?'are':'is a'} noble gas${n>1?'es':''} …` ``. -/
def nobleGasReason (gases : List Element) : String :=
  String.intercalate ", " (gases.map fun e => e.name) ++ " " ++
    (if gases.length > 1 then "are" else "is a") ++ " noble gas" ++
    (if gases.length > 1 then "es" else "") ++
    " with a complete valence shell and will not readily form compounds."

/-- One balanced binary candidate, from the opposite-sign pair `(oxa, oxb)`:
`g = gcd(|oxa|, |oxb|)`, subscripts `|oxb|/g` and `|oxa|/g`, subscript 1 elided
by the source's four-way conditional. -/
def mkBinaryCand (e1 e2 : Element) (oxa oxb : Int) : Candidate :=
  let g := jsGcd oxa.natAbs oxb.natAbs
  let subA := oxb.natAbs / g
  let subB := oxa.natAbs / g
  { formula :=
      if subA = 1 ∧ subB = 1 then e1.symbol ++ e2.symbol
      else if subA = 1 then e1.symbol ++ e2.symbol ++ toString subB
      else if subB = 1 then e1.symbol ++ toString subA ++ e2.symbol
      else e1.symbol ++ toString subA ++ e2.symbol ++ toString subB
    oxInfo := e1.symbol ++ ": " ++ signedOx oxa ++ ", " ++ e2.symbol ++ ": " ++ signedOx oxb
    assignment := [(e1.symbol, oxa, subA), (e2.symbol, oxb, subB)] }

/-- The binary solver's double loop over nonzero oxidation states, pushing one
candidate per pair not skipped by the same-sign test. -/
def binaryFormulas (e1 e2 : Element) (nz1 nz2 : List Int) : List Candidate :=
  nz1.foldl
    (fun acc oxa =>
      nz2.foldl
        (fun acc2 oxb =>
          if sameSign oxa oxb then acc2 else acc2 ++ [mkBinaryCand e1 e2 oxa oxb])
        acc)
    []

/-- The `commonPairs` table of `checkCommonCompounds`, keyed `sym1-sym2`. -/
def commonPairLookup (k : String) : Option String :=
  if k = "H-O" then some "Water (H₂O) is one of the most stable compounds."
  else if k = "H-Cl" then some "Hydrochloric acid (HCl) is a very stable compound."
  else if k = "Na-Cl" then some "Table salt (NaCl) is extremely stable."
  else if k = "C-O" then some "Carbon dioxide (CO₂) and carbon monoxide (CO) are stable."
  else if k = "N-H" then some "Ammonia (NH₃) is a stable compound."
  else if k = "Ca-O" then some "Calcium oxide (CaO) is a common stable compound."
  else if k = "Mg-O" then some "Magnesium oxide (MgO) is highly stable."
  else if k = "Fe-O" then some "Iron oxides (FeO, Fe₂O₃) are common and stable."
  else if k = "Al-O" then some "Aluminum oxide (Al₂O₃) is extremely stable."
  else if k = "Si-O" then some "Silicon dioxide (SiO₂) is very stable - quartz."
  else if k = "H-N" then some "Ammonia (NH₃) is stable."
  else if k = "H-S" then some "Hydrogen sulfide (H₂S) is a known compound."
  else if k = "K-Cl" then some "Potassium chloride (KCl) is stable."
  else if k = "Ca-Cl" then some "Calcium chloride (CaCl₂) is stable."
  else none

/-- `checkCommonCompounds(el1, el2, formulas)`: looks up both key orders (the
`formulas` argument is unused by the source). -/
def checkCommonCompounds (el1 el2 : Element) : Option String :=
  match commonPairLookup (el1.symbol ++ "-" ++ el2.symbol) with
  | some s => some s
  | none => commonPairLookup (el2.symbol ++ "-" ++ el1.symbol)

/-- `analyzeBinaryCompound(element1, element2, bondType, enDiff)`. -/
def analyzeBinaryCompound (element1 element2 : Element) (bondType : String)
    (enDiff : ℚ) : CompoundAnalysis :=
  let nonZeroOx1 := nonZeroOx element1
  let nonZeroOx2 := nonZeroOx element2
  if nonZeroOx1 = [] ∨ nonZeroOx2 = [] then
    { likelihood := "unlikely", formulas := [], bondType
      reason := "One or both elements lack non-zero oxidation states needed for compound formation."
      elements := [element1, element2], enDiff := some enDiff, userSpecified := false }
  else
    let formulas := binaryFormulas element1 element2 nonZeroOx1 nonZeroOx2
    let base :=
      if formulas = [] then
        ("unlikely", "Unable to balance charges with available oxidation states.")
      else if bondType = "ionic" ∧ enDiff > 2.0 then
        ("likely", "Strong ionic bonding expected with electronegativity difference of " ++
          fixed2 enDiff ++ ". Charges balance well.")
      else if bondType = "ionic" then
        ("likely", "Ionic bonding expected with electronegativity difference of " ++
          fixed2 enDiff ++ ". Stable compound likely.")
      else if bondType = "polar covalent" then
        ("likely", "Polar covalent bonding with electronegativity difference of " ++
          fixed2 enDiff ++ ". Stable molecular compound.")
      else
        ("likely", "Covalent bonding with electronegativity difference of " ++
          fixed2 enDiff ++ ". Stable compound expected.")
    let final :=
      match checkCommonCompounds element1 element2 with
      | some s => ("likely", s ++ " " ++ base.2)
      | none => base
    { likelihood := final.1, formulas, bondType, reason := final.2
      elements := [element1, element2], enDiff := some enDiff, userSpecified := false }

/-- `maxAtoms = 12`: atom-count bound of the primary multi-element search. -/
def maxAtoms : Nat := 12

/-- `maxFormulas = 50`: emission cap of the primary multi-element search. -/
def maxFormulas : Nat := 50

/-- Accumulator of the primary search's closure: the `formulas` array and the
`testedCount` counter (incremented exactly when a formula is pushed). -/
structure MultiState where
  formulas : List Candidate
  testedCount : Nat
deriving DecidableEq, Repr

/-- The sort-and-take-first computing each element's preferred oxidation state:
smallest absolute value, ties broken in favour of the larger (positive) value.
Evaluated as the minimum of the comparator's order (`[]` is unreachable: the
search runs only when every element has a nonzero state). -/
def preferredOx : List Int → Int
  | [] => 0
  | x :: xs =>
      xs.foldl
        (fun best y =>
          if y.natAbs < best.natAbs ∨ (y.natAbs = best.natAbs ∧ y > best) then y else best)
        x

/-- `Math.max(...slice.map(e => Math.abs(e.preferredOx)))` — applied by the
search only to nonempty slices, where the fold from 0 agrees. -/
def maxAbsList (l : List Int) : Nat := l.foldl (fun m x => max m x.natAbs) 0

/-- `${sym}: ${ox > 0 ? '+' : ''}${ox} (×${count})` entries joined by `', '` —
the display string built from an assignment by the primary search and the
user-formula validator. -/
def renderAssign (a : List (String × Int × Nat)) : String :=
  String.intercalate ", "
    (a.map fun t => t.1 ++ ": " ++ signedOx t.2.1 ++ " (×" ++ toString t.2.2 ++ ")")

/-- Pointwise zip of elements, preferred oxidation states and chosen counts,
mirroring the source's parallel index `i` into `elements`, `preferredOxStates`
and `currentCounts`. -/
def zip3 : List Element → List Int → List Nat → List (Element × Int × Nat)
  | e :: es, p :: ps, c :: cs => (e, p, c) :: zip3 es ps cs
  | _, _, _ => []

/-- `findBalancedFormulas(elementIndex, currentCounts, currentCharge)`: the
recursive backtracking search.  `rest` is the suffix of preferred oxidation
states from `elementIndex` on, `acc` the counts already fixed (positions below
`elementIndex`; the source keeps them in a full-length array whose tail is
still 0).  Each call first returns if `testedCount >= maxFormulas`; past the
last element it emits the assignment when the charge is balanced, some count is
positive and at least two elements appear; otherwise it loops `count = 0..maxAtoms`
(while `testedCount < maxFormulas`), recursing on the last element only when
the new charge is exactly 0 and otherwise only when the remaining elements
could still correct the new charge. -/
def fbfStep (elems : List Element) (prefs : List Int) :
    List Int → List Nat → Int → MultiState → MultiState
  | [], acc, currentCharge, st =>
      if st.testedCount ≥ maxFormulas then st
      else if currentCharge = 0 ∧ acc.any (fun c => c > 0) then
        let active := (zip3 elems prefs acc).filter fun t => t.2.2 > 0
        if active.length ≥ 2 then
          { formulas := st.formulas ++
              [{ formula := String.join (active.map fun t => symWithCount t.1.symbol t.2.2)
                 oxInfo := renderAssign (active.map fun t => (t.1.symbol, t.2.1, t.2.2))
                 assignment := active.map fun t => (t.1.symbol, t.2.1, t.2.2) }]
            testedCount := st.testedCount + 1 }
        else st
      else st
  | p :: rest, acc, currentCharge, st =>
      if st.testedCount ≥ maxFormulas then st
      else
        (List.range (maxAtoms + 1)).foldl
          (fun st1 (count : Nat) =>
            if st1.testedCount < maxFormulas then
              let newCharge := currentCharge + p * (count : Int)
              if rest = [] then
                if newCharge = 0 then fbfStep elems prefs rest (acc ++ [count]) newCharge st1
                else st1
              else
                if newCharge.natAbs ≤ rest.length * maxAtoms * maxAbsList rest then
                  fbfStep elems prefs rest (acc ++ [count]) newCharge st1
                else st1
            else st1)
          st

/-- `elements.map(el => ({element: el, oxStates: …}))` shared by the
multi-element search and its fallback. -/
def elementOxStatesOf (elems : List Element) : List (Element × List Int) :=
  elems.map fun el => (el, nonZeroOx el)

/-- The preferred oxidation state of each element, in element order. -/
def preferredList (elems : List Element) : List Int :=
  (elementOxStatesOf elems).map fun p => preferredOx p.2

/-- The primary multi-element search: `findBalancedFormulas(0, zeros, 0)` run
with every element using its preferred oxidation state. -/
def primaryFormulas (elems : List Element) : List Candidate :=
  (fbfStep elems (preferredList elems) (preferredList elems) [] 0 ⟨[], 0⟩).formulas

/-- One fallback candidate for elements `ei < ej` using states `(oxi, oxj)`:
GCD subscripts as in the binary solver, every other element's count 0 (and thus
absent from the rendered formula and the assignment).  The source's sign prefix
here tests `counts[k] > 0` (always true for the two kept entries) instead of
the oxidation state, so negative states render as `+-n`; reproduced as is. -/
def mkFallbackCand (ei ej : Element) (oxi oxj : Int) : Candidate :=
  let g := jsGcd oxi.natAbs oxj.natAbs
  let count1 := oxj.natAbs / g
  let count2 := oxi.natAbs / g
  { formula := symWithCount ei.symbol count1 ++ symWithCount ej.symbol count2
    oxInfo := ei.symbol ++ ": +" ++ toString oxi ++ " (×" ++ toString count1 ++ "), " ++
      ej.symbol ++ ": +" ++ toString oxj ++ " (×" ++ toString count2 ++ ")"
    assignment := [(ei.symbol, oxi, count1), (ej.symbol, oxj, count2)] }

/-- Inner `j` loop of the fallback: pairs `ei` with each later element while
`formulas.length < 10`, pushing a candidate for every opposite-sign state
combination of the pair (the state loops themselves are not length-guarded). -/
def fallbackInner (ei : Element) (nzi : List Int) :
    List (Element × List Int) → List Candidate → List Candidate
  | [], fs => fs
  | (ej, nzj) :: rest, fs =>
      if fs.length < 10 then
        fallbackInner ei nzi rest
          (nzi.foldl
            (fun a oxi =>
              nzj.foldl
                (fun b oxj =>
                  if oppositeSign oxi oxj then b ++ [mkFallbackCand ei ej oxi oxj] else b)
                a)
            fs)
      else fs

/-- Outer `i` loop of the fallback pairwise search, guarded by
`formulas.length < 10`. -/
def fallbackPairs : List (Element × List Int) → List Candidate → List Candidate
  | [], fs => fs
  | (ei, nzi) :: rest, fs =>
      if fs.length < 10 then fallbackPairs rest (fallbackInner ei nzi rest fs) else fs

/-- The fallback pairwise search over the whole element list. -/
def fallbackFormulas (elems : List Element) : List Candidate :=
  fallbackPairs (elementOxStatesOf elems) []

/-- `${names} lack${n === 1 ? 's' : ''} non-zero oxidation states needed for compound formation.` -/
def missingOxReason (missing : List Element) : String :=
  String.intercalate ", " (missing.map fun e => e.name) ++ " lack" ++
    (if missing.length = 1 then "s" else "") ++
    " non-zero oxidation states needed for compound formation."

/-- `analyzeMultiElementCompound(elements, bondType, maxENDiff)`. -/
def analyzeMultiElementCompound (elements : List Element) (bondType : String)
    (maxENDiff : ℚ) : CompoundAnalysis :=
  let missingOxStates := (elementOxStatesOf elements).filter fun p => p.2 = []
  if missingOxStates ≠ [] then
    { likelihood := "unlikely", formulas := [], bondType
      reason := missingOxReason (missingOxStates.map fun p => p.1)
      elements, enDiff := some maxENDiff, userSpecified := false }
  else
    let primary := primaryFormulas elements
    let formulas := if primary = [] then fallbackFormulas elements else primary
    let final :=
      if formulas.length = 0 then
        ("unlikely", "Unable to find charge-balanced combinations with available oxidation states for " ++
          toString elements.length ++ " elements.")
      else if formulas.length > 20 then
        ("possible but unstable", "Found " ++ toString formulas.length ++
          " possible charge-balanced formulas with max electronegativity difference of " ++
          fixed2 maxENDiff ++
          ". Multi-element compounds are often complex and may require specific conditions for stability.")
      else if maxENDiff > 1.5 ∧ formulas.length ≥ 1 then
        ("possible but unstable", "Found " ++ toString formulas.length ++ " possible formula" ++
          (if formulas.length > 1 then "s" else "") ++ " with mixed ionic/covalent character (ΔEN = " ++
          fixed2 maxENDiff ++ "). Complex multi-element compounds may form under specific conditions.")
      else
        ("possible but unstable", "Found " ++ toString formulas.length ++ " charge-balanced formula" ++
          (if formulas.length > 1 then "s" else "") ++ " with primarily covalent character (ΔEN = " ++
          fixed2 maxENDiff ++
          "). Multi-element organic/molecular compounds may be stable but require specific structural knowledge.")
    { likelihood := final.1, formulas := formulas.take 20, bondType
      reason := final.2, elements, enDiff := some maxENDiff, userSpecified := false }

/-- `findBalance(index, currentCharge, selectedOxStates)` of
`validateChargeBalance`: depth-first over the full cross-product of each
element's nonzero oxidation states, in listed order, returning the first
selection whose total charge is zero.  `eos` carries
(element, count, nonzero oxidation states) from `index` on. -/
def findBalance : List (Element × Nat × List Int) → Int →
    List (String × Int × Nat) → Option (List (String × Int × Nat))
  | [], currentCharge, selected => if currentCharge = 0 then some selected else none
  | (el, count, oxs) :: rest, currentCharge, selected =>
      oxs.foldr
        (fun oxState res =>
          match findBalance rest (currentCharge + oxState * (count : Int))
              (selected ++ [(el.symbol, oxState, count)]) with
          | some r => some r
          | none => res)
        none

/-- Result of `validateChargeBalance`: either a balancing assignment (rendered
into the `oxidationStates` display string by the caller) or the `reason` the
source reports. -/
inductive ChargeCheck where
  | balanced (assignment : List (String × Int × Nat)) : ChargeCheck
  | unbalanced (why : String) : ChargeCheck
deriving DecidableEq, Repr

/-- `validateChargeBalance(elementCounts)`. -/
def validateChargeBalance (elementCounts : List (Element × Nat)) : ChargeCheck :=
  let elementOxStates := elementCounts.map fun ec => (ec.1, ec.2, nonZeroOxV ec.1)
  if elementOxStates.any (fun eos => eos.2.2 = []) then
    .unbalanced "Some elements lack defined oxidation states."
  else
    match findBalance elementOxStates 0 [] with
    | some balancedStates => .balanced balancedStates
    | none => .unbalanced "Could not find oxidation states that balance the total charge to zero."

/-- The canonical formula string the validator builds from sorted user counts. -/
def userFormulaStr (ecs : List (Element × Nat)) : String :=
  String.join (ecs.map fun ec => symWithCount ec.1.symbol ec.2)

/-- The `commonFormulas` table of `checkCommonPattern`, keyed by exact formula. -/
def commonFormulaLookup (f : String) : Option String :=
  if f = "H2O" then some "Water is one of the most stable and abundant compounds."
  else if f = "H2O2" then some "Hydrogen peroxide is a well-known oxidizer."
  else if f = "NaCl" then some "Table salt is extremely stable."
  else if f = "CO2" then some "Carbon dioxide is a stable and common gas."
  else if f = "CO" then some "Carbon monoxide is stable though toxic."
  else if f = "NH3" then some "Ammonia is a stable and important compound."
  else if f = "CH4" then some "Methane is a stable hydrocarbon."
  else if f = "C2H6" then some "Ethane is a stable hydrocarbon."
  else if f = "C3H8" then some "Propane is a stable fuel."
  else if f = "C6H12O6" then some "Glucose is a fundamental biological molecule."
  else if f = "H2SO4" then some "Sulfuric acid is a very stable strong acid."
  else if f = "HCl" then some "Hydrochloric acid is highly stable."
  else if f = "HNO3" then some "Nitric acid is a stable strong acid."
  else if f = "CaCO3" then some "Calcium carbonate (limestone) is very stable."
  else if f = "NaOH" then some "Sodium hydroxide is a stable strong base."
  else if f = "KOH" then some "Potassium hydroxide is a stable strong base."
  else if f = "CaO" then some "Calcium oxide (quicklime) is stable."
  else if f = "MgO" then some "Magnesium oxide is highly stable."
  else if f = "Al2O3" then some "Aluminum oxide (corundum) is extremely stable."
  else if f = "SiO2" then some "Silicon dioxide (quartz) is very stable."
  else if f = "Fe2O3" then some "Iron(III) oxide (rust) is stable."
  else if f = "FeO" then some "Iron(II) oxide is a known compound."
  else if f = "CaCl2" then some "Calcium chloride is stable."
  else if f = "Na2SO4" then some "Sodium sulfate is stable."
  else if f = "K2CO3" then some "Potassium carbonate is stable."
  else if f = "C8H10N4O2" then some "Caffeine - a stable alkaloid compound!"
  else none

/-- `checkCommonPattern(elementCounts)`: rebuilds the formula string from the
counts and looks it up. -/
def checkCommonPattern (elementCounts : List (Element × Nat)) : Option String :=
  commonFormulaLookup (userFormulaStr elementCounts)

/-- The unbalanced-formula rationale of `analyzeUserFormula`, wrapping
`chargeAnalysis.reason`. -/
def mismatchReason (f inner : String) : String :=
  "Your formula " ++ f ++ " does not achieve perfect charge balance with common oxidation states. " ++
    inner ++ " The compound may still exist but could be unstable or require unusual bonding."

/-- `analyzeUserFormula(elementCounts, elements)`; `elements` is the full
(already sorted) selection, used only for the `elements` field of the result. -/
def analyzeUserFormula (getEN : Nat → Option ℚ) (elementCounts : List (Element × Nat))
    (elements : List Element) : CompoundAnalysis :=
  let ecs := sortCounts elementCounts
  let userFormula := userFormulaStr ecs
  let nobleGases := ecs.filter fun ec => ec.1.category = "noble gas"
  if nobleGases ≠ [] then
    { likelihood := "unlikely"
      formulas := [{ formula := userFormula, oxInfo := "User-specified formula", assignment := [] }]
      bondType := "none", reason := nobleGasReason (nobleGases.map fun ec => ec.1)
      elements, enDiff := none, userSpecified := true }
  else if (ecs.map fun ec => getEN ec.1.atomicNumber).any (fun en => en = none) then
    { likelihood := "possible but unstable"
      formulas := [{ formula := userFormula, oxInfo := "User-specified formula", assignment := [] }]
      bondType := "unknown"
      reason := "Insufficient electronegativity data available for complete analysis of your formula " ++
        userFormula ++ "."
      elements, enDiff := none, userSpecified := true }
  else
    let maxENDiff := maxListQ (pairDiffs (ecs.filterMap fun ec => getEN ec.1.atomicNumber))
    let bondType := classifyBond maxENDiff
    match validateChargeBalance ecs with
    | .balanced assignment =>
        let final :=
          match checkCommonPattern ecs with
          | some s =>
              ("likely", "Your formula " ++ userFormula ++
                " is charge-balanced and matches known stable compound patterns. " ++ s)
          | none =>
              if bondType = "ionic" ∧ maxENDiff > 1.7 then
                ("likely", "Your formula " ++ userFormula ++
                  " is charge-balanced with strong ionic character (ΔEN = " ++ fixed2 maxENDiff ++
                  "). This suggests a stable ionic compound.")
              else if maxENDiff > 0.4 then
                ("likely", "Your formula " ++ userFormula ++ " is charge-balanced with " ++
                  bondType ++ " bonding (ΔEN = " ++ fixed2 maxENDiff ++
                  "). This could form a stable compound.")
              else
                ("possible but unstable", "Your formula " ++ userFormula ++
                  " is charge-balanced but has weak electronegativity differences (ΔEN = " ++
                  fixed2 maxENDiff ++ "). May require specific molecular structure.")
        { likelihood := final.1
          formulas := [{ formula := userFormula, oxInfo := renderAssign assignment, assignment }]
          bondType, reason := final.2, elements, enDiff := some maxENDiff, userSpecified := true }
    | .unbalanced why =>
        { likelihood := "possible but unstable"
          formulas := [{ formula := userFormula, oxInfo := "User-specified formula", assignment := [] }]
          bondType, reason := mismatchReason userFormula why
          elements, enDiff := some maxENDiff, userSpecified := true }

/-- `analyzeCompound(elements, userSpecifiedCounts)`: sorts the elements, tries
the user-specified formula first (the helper always returns a truthy record),
then short-circuits on noble gases and missing electronegativity data, then
dispatches on arity. -/
def analyzeCompound (getEN : Nat → Option ℚ) (elementsIn : List Element)
    (userSpecifiedCounts : List (Element × Nat)) : CompoundAnalysis :=
  let elements := sortElems elementsIn
  if userSpecifiedCounts ≠ [] then
    analyzeUserFormula getEN userSpecifiedCounts elements
  else
    let nobleGases := elements.filter fun el => el.category = "noble gas"
    if nobleGases ≠ [] then
      { likelihood := "unlikely", formulas := [], bondType := "none"
        reason := nobleGasReason nobleGases, elements, enDiff := none, userSpecified := false }
    else if (elements.map fun el => getEN el.atomicNumber).any (fun en => en = none) then
      -- the source pushes the bare joined-symbol string here rather than a
      -- candidate object; modelled as a candidate with empty annotations
      { likelihood := "possible but unstable"
        formulas := [{ formula := String.join (elements.map fun el => el.symbol)
                       oxInfo := "", assignment := [] }]
        bondType := "unknown"
        reason := "Insufficient electronegativity data available for complete analysis."
        elements, enDiff := none, userSpecified := false }
    else
      let maxENDiff := maxListQ (pairDiffs (elements.filterMap fun el => getEN el.atomicNumber))
      let bondType := classifyBond maxENDiff
      match elements with
      | [e1, e2] => analyzeBinaryCompound e1 e2 bondType maxENDiff
      | _ => analyzeMultiElementCompound elements bondType maxENDiff

/-! ### Basic lemmas -/

/-- Total charge `Σ oxidationState × count` of an assignment. -/
def assignSum (a : List (String × Int × Nat)) : Int :=
  (a.map fun t => t.2.1 * (t.2.2 : Int)).sum

/-- From the spec's words: every pair `(oxA, oxB)` of nonzero oxidation states
with opposite signs, in iteration order. -/
def specOppositePairs (nz1 nz2 : List Int) : List (Int × Int) :=
  nz1.flatMap fun oxA => (nz2.filter fun oxB => oxA * oxB < 0).map fun oxB => (oxA, oxB)

/-- From the spec's words: `subA = |oxB| / gcd(|oxA|, |oxB|)`. -/
def specSubA (oxA oxB : Int) : Nat := oxB.natAbs / Nat.gcd oxA.natAbs oxB.natAbs

/-- From the spec's words: `subB = |oxA| / gcd(|oxA|, |oxB|)`. -/
def specSubB (oxA oxB : Int) : Nat := oxA.natAbs / Nat.gcd oxA.natAbs oxB.natAbs

/-- From the spec's words: element 1 first, element 2 second, eliding any
subscript equal to 1. -/
def specRenderFormula (s1 : String) (a : Nat) (s2 : String) (b : Nat) : String :=
  s1 ++ (if a = 1 then "" else toString a) ++ s2 ++ (if b = 1 then "" else toString b)

/-- Concrete element records as served by the periodic-table dataset, used to
instantiate the universally quantified theorems. -/
def elemH : Element := ⟨1, "H", "Hydrogen", "diatomic nonmetal", some [-1, 0, 1]⟩

def elemHe : Element := ⟨2, "He", "Helium", "noble gas", some []⟩

def elemC : Element := ⟨6, "C", "Carbon", "polyatomic nonmetal", some [-4, -3, -2, -1, 0, 1, 2, 3, 4]⟩

def elemO : Element := ⟨8, "O", "Oxygen", "diatomic nonmetal", some [-2, -1, 0, 1, 2]⟩

def elemNa : Element := ⟨11, "Na", "Sodium", "alkali metal", some [-1, 0, 1]⟩

def elemCl : Element := ⟨17, "Cl", "Chlorine", "diatomic nonmetal", some [-1, 0, 1, 3, 5, 7]⟩

/-- Pauling electronegativities of the fixture elements. -/
def enTable : Nat → Option ℚ := fun n =>
  if n = 1 then some 2.20
  else if n = 6 then some 2.55
  else if n = 8 then some 3.44
  else if n = 11 then some 0.93
  else if n = 17 then some 3.16
  else if n = 76 then some 2.2
  else none

/-- Strict version of the sort comparator's order. -/
def elemLT (a b : Element) : Prop := a.atomicNumber < b.atomicNumber

instance : IsAntisymm Element elemLT :=
  ⟨fun _ _ h h' => absurd h' (Nat.lt_asymm h)⟩

/-- The input's atomic numbers are pairwise distinct (the caller selects
elements from a set of atomic numbers, so this holds for every real input). -/
@[reducible] def keysNodup (l : List Element) : Prop := (l.map fun e => e.atomicNumber).Nodup

/-- Osmium as served by the dataset: thirteen oxidation states −4 … +8. -/
def elemOs : Element :=
  ⟨76, "Os", "Osmium", "transition metal", some [-4, -3, -2, -1, 0, 1, 2, 3, 4, 5, 6, 7, 8]⟩

/-- A selection of one oxidation state per element, charge-weighted sum
(`Σ oxidationState × count`). -/
def choiceSum : List (Element × Nat × List Int) → List Int → Int
  | (_, count, _) :: rest, ox :: more => ox * (count : Int) + choiceSum rest more
  | _, _ => 0

/-- `choice` picks, for each entry of `eos` in order, one of its listed
oxidation states. -/
def ChoiceOk : List (Element × Nat × List Int) → List Int → Prop
  | [], [] => True
  | (_, _, oxs) :: rest, ox :: more => ox ∈ oxs ∧ ChoiceOk rest more
  | _, _ => False

/-- The (element, count, nonzero oxidation states) rows the validator builds
from the (sorted) user counts. -/
def userEos (ecs : List (Element × Nat)) : List (Element × Nat × List Int) :=
  ecs.map fun ec => (ec.1, ec.2, nonZeroOxV ec.1)

/-- `c` is a two-element GCD-subscript candidate built by the fallback from an
opposite-sign state pair of two elements appearing in this order in the input
(all other elements' counts 0, so they are absent from the formula and the
assignment). -/
def IsFallbackPair (eos : List (Element × List Int)) (c : Candidate) : Prop :=
  ∃ ei nzi ej nzj oxi oxj, [(ei, nzi), (ej, nzj)].Sublist eos ∧ oxi ∈ nzi ∧ oxj ∈ nzj ∧
    oppositeSign oxi oxj = true ∧ c = mkFallbackCand ei ej oxi oxj

/-- Synthetic three-element input whose preferred oxidation states are all +2
(so the primary search finds nothing) while the first element offers six
negative states to each of the other two in the fallback. -/
def elemT1 : Element := ⟨101, "T1", "TestOne", "metal", some [2, -3, -5, -7, -9, -11, -13]⟩

def elemT2 : Element := ⟨102, "T2", "TestTwo", "metal", some [2]⟩

def elemT3 : Element := ⟨103, "T3", "TestThree", "metal", some [2]⟩

/-- Electronegativity table assigning 1 to every element, for the synthetic
fallback inputs. -/
def enOne : Nat → Option ℚ := fun _ => some 1

/-- Running charge of the source's search: `Σ preferredOx_i × count_i` over the
already-assigned prefix. -/
def dotPC : List Int → List Nat → Int
  | p :: ps, c :: cs => p * (c : Int) + dotPC ps cs
  | _, _ => 0

theorem jsGcdF_eq_gcd : ∀ (fuel a b : Nat), b < fuel → jsGcdF fuel a b = Nat.gcd a b := by
  intro fuel
  induction fuel with
  | zero => intro a b h; omega
  | succ n ih =>
      intro a b h
      by_cases hb : b = 0
      · simp [jsGcdF, hb]
      · have hmod : a % b < b := Nat.mod_lt a (Nat.pos_of_ne_zero hb)
        have : jsGcdF n b (a % b) = Nat.gcd b (a % b) := ih b (a % b) (by omega)
        rw [jsGcdF, if_neg hb, this, Nat.gcd_comm b (a % b), ← Nat.gcd_rec b a,
          Nat.gcd_comm b a]

theorem jsGcd_eq_gcd (a b : Nat) : jsGcd a b = Nat.gcd a b :=
  jsGcdF_eq_gcd (b + 1) a b (Nat.lt_succ_self b)

theorem natCross {A B g : Nat} (hA : g ∣ A) (hB : g ∣ B) :
    A * (B / g) = B * (A / g) := by
  rw [← Nat.mul_div_assoc A hB, ← Nat.mul_div_assoc B hA, Nat.mul_comm A B]

/-- The GCD subscripts balance the pair's charges whenever the signs differ. -/
theorem oppositePairBalanced {a b : Int} (ha : a ≠ 0) (hb : b ≠ 0)
    (hs : sameSign a b = false) :
    a * ((b.natAbs / jsGcd a.natAbs b.natAbs : Nat) : Int) +
      b * ((a.natAbs / jsGcd a.natAbs b.natAbs : Nat) : Int) = 0 := by
  rw [jsGcd_eq_gcd]
  have hcross := natCross (Nat.gcd_dvd_left a.natAbs b.natAbs)
    (Nat.gcd_dvd_right a.natAbs b.natAbs)
  simp only [sameSign, Bool.or_eq_false_iff, Bool.and_eq_false_iff,
    decide_eq_false_iff_not, not_lt] at hs
  obtain ⟨h1, h2⟩ := hs
  rcases lt_or_gt_of_ne ha with ha' | ha' <;> rcases lt_or_gt_of_ne hb with hb' | hb'
  · omega
  · -- a < 0 < b
    have ea : (a.natAbs : Int) = -a := by omega
    have eb : (b.natAbs : Int) = b := by omega
    have hc : (a.natAbs : Int) * ((b.natAbs / Nat.gcd a.natAbs b.natAbs : Nat) : Int) =
        (b.natAbs : Int) * ((a.natAbs / Nat.gcd a.natAbs b.natAbs : Nat) : Int) := by
      exact_mod_cast congrArg (fun n : Nat => (n : Int)) hcross
    rw [ea, eb] at hc
    linear_combination -hc
  · -- b < 0 < a
    have ea : (a.natAbs : Int) = a := by omega
    have eb : (b.natAbs : Int) = -b := by omega
    have hc : (a.natAbs : Int) * ((b.natAbs / Nat.gcd a.natAbs b.natAbs : Nat) : Int) =
        (b.natAbs : Int) * ((a.natAbs / Nat.gcd a.natAbs b.natAbs : Nat) : Int) := by
      exact_mod_cast congrArg (fun n : Nat => (n : Int)) hcross
    rw [ea, eb] at hc
    linear_combination hc
  · omega

theorem mkBinaryCand_balanced (e1 e2 : Element) {oxa oxb : Int} (ha : oxa ≠ 0)
    (hb : oxb ≠ 0) (hs : sameSign oxa oxb = false) :
    assignSum (mkBinaryCand e1 e2 oxa oxb).assignment = 0 := by
  have := oppositePairBalanced ha hb hs
  simp only [mkBinaryCand, assignSum, List.map_cons, List.map_nil, List.sum_cons,
    List.sum_nil, add_zero]
  exact this

/-- `oppositeSign` pairs also balance under the GCD subscripts. -/
theorem mkFallbackCand_balanced (ei ej : Element) {oxi oxj : Int}
    (hs : oppositeSign oxi oxj = true) :
    assignSum (mkFallbackCand ei ej oxi oxj).assignment = 0 := by
  simp only [oppositeSign, Bool.or_eq_true, Bool.and_eq_true, decide_eq_true_eq] at hs
  have hi : oxi ≠ 0 := by rcases hs with ⟨h, _⟩ | ⟨h, _⟩ <;> omega
  have hj : oxj ≠ 0 := by rcases hs with ⟨_, h⟩ | ⟨_, h⟩ <;> omega
  have hss : sameSign oxi oxj = false := by
    simp only [sameSign, Bool.or_eq_false_iff, Bool.and_eq_false_iff,
      decide_eq_false_iff_not, not_lt]
    rcases hs with ⟨h1, h2⟩ | ⟨h1, h2⟩
    · exact ⟨Or.inr (by omega), Or.inl (by omega)⟩
    · exact ⟨Or.inl (by omega), Or.inr (by omega)⟩
  have := oppositePairBalanced hi hj hss
  simp only [mkFallbackCand, assignSum, List.map_cons, List.map_nil, List.sum_cons,
    List.sum_nil, add_zero]
  exact this

/-! ### The binary solver's loop as a flat list of pair candidates -/

theorem binaryInner_eq (e1 e2 : Element) (oxa : Int) :
    ∀ (nz2 : List Int) (acc : List Candidate),
      nz2.foldl
        (fun acc2 oxb =>
          if sameSign oxa oxb then acc2 else acc2 ++ [mkBinaryCand e1 e2 oxa oxb]) acc =
      acc ++ nz2.flatMap
        (fun oxb => if sameSign oxa oxb then [] else [mkBinaryCand e1 e2 oxa oxb]) := by
  intro nz2
  induction nz2 with
  | nil => intro acc; simp
  | cons b rest ih =>
      intro acc
      rw [List.foldl_cons, ih, List.flatMap_cons]
      by_cases hs : sameSign oxa b <;> simp [hs]

theorem binaryFormulas_eq (e1 e2 : Element) (nz1 nz2 : List Int) :
    binaryFormulas e1 e2 nz1 nz2 =
      nz1.flatMap fun oxa =>
        nz2.flatMap fun oxb =>
          if sameSign oxa oxb then [] else [mkBinaryCand e1 e2 oxa oxb] := by
  unfold binaryFormulas
  suffices h : ∀ (l : List Int) (acc : List Candidate),
      l.foldl
        (fun acc oxa =>
          nz2.foldl
            (fun acc2 oxb =>
              if sameSign oxa oxb then acc2 else acc2 ++ [mkBinaryCand e1 e2 oxa oxb]) acc)
        acc =
      acc ++ l.flatMap (fun oxa =>
        nz2.flatMap fun oxb =>
          if sameSign oxa oxb then [] else [mkBinaryCand e1 e2 oxa oxb]) by
    simpa using h nz1 []
  intro l
  induction l with
  | nil => intro acc; simp
  | cons a rest ih =>
      intro acc
      rw [List.foldl_cons, ih, binaryInner_eq, List.flatMap_cons, List.append_assoc]

/-! ### Specification-side description of the binary solver (§4.3 of the spec) -/

theorem sameSign_eq_false_iff {a b : Int} (ha : a ≠ 0) (hb : b ≠ 0) :
    sameSign a b = false ↔ a * b < 0 := by
  rw [mul_neg_iff]
  simp only [sameSign, Bool.or_eq_false_iff, Bool.and_eq_false_iff,
    decide_eq_false_iff_not, not_lt]
  omega

theorem mkBinaryCand_formula (e1 e2 : Element) (a b : Int) :
    (mkBinaryCand e1 e2 a b).formula =
      specRenderFormula e1.symbol (specSubA a b) e2.symbol (specSubB a b) := by
  simp only [mkBinaryCand, specRenderFormula, specSubA, specSubB, jsGcd_eq_gcd]
  by_cases h1 : b.natAbs / Nat.gcd a.natAbs b.natAbs = 1 <;>
    by_cases h2 : a.natAbs / Nat.gcd a.natAbs b.natAbs = 1 <;>
    simp [h1, h2, String.append_assoc]

theorem binaryInner_spec (e1 e2 : Element) (a : Int) (ha : a ≠ 0) :
    ∀ (nz2 : List Int), (∀ b ∈ nz2, b ≠ 0) →
      (nz2.flatMap fun oxb =>
          if sameSign a oxb then [] else [mkBinaryCand e1 e2 a oxb]).map
          (fun c => (c.formula, c.assignment)) =
        ((nz2.filter fun oxB => a * oxB < 0).map fun oxB => (a, oxB)).map
          (fun p =>
            (specRenderFormula e1.symbol (specSubA p.1 p.2) e2.symbol (specSubB p.1 p.2),
              [(e1.symbol, p.1, specSubA p.1 p.2), (e2.symbol, p.2, specSubB p.1 p.2)])) := by
  intro nz2
  induction nz2 with
  | nil => simp
  | cons b rest2 ih2 =>
      intro h2
      have hb : b ≠ 0 := h2 b (List.mem_cons_self b rest2)
      have hrest2 : ∀ x ∈ rest2, x ≠ 0 := fun x hx => h2 x (List.mem_cons_of_mem b hx)
      by_cases hs : sameSign a b
      · have hnlt : ¬ (a * b < 0) := by
          intro hlt
          rw [← sameSign_eq_false_iff ha hb] at hlt
          simp [hs] at hlt
        simp only [List.flatMap_cons, List.filter_cons, hs, if_true, List.map_append,
          decide_eq_true_eq, hnlt, if_false, List.map_nil, List.nil_append]
        exact ih2 hrest2
      · have hlt : a * b < 0 := by
          rw [← sameSign_eq_false_iff ha hb]
          exact Bool.eq_false_iff.mpr hs
        simp only [List.flatMap_cons, List.filter_cons, hlt, decide_eq_true_eq, if_true,
          List.map_cons]
        rw [if_neg hs]
        simp only [List.singleton_append, List.map_cons]
        rw [ih2 hrest2]
        congr 1
        rw [Prod.ext_iff]
        exact ⟨mkBinaryCand_formula e1 e2 a b,
          by simp [mkBinaryCand, jsGcd_eq_gcd, specSubA, specSubB]⟩

theorem binaryFormulas_spec (e1 e2 : Element) (nz1 nz2 : List Int)
    (h1 : ∀ a ∈ nz1, a ≠ 0) (h2 : ∀ b ∈ nz2, b ≠ 0) :
    (binaryFormulas e1 e2 nz1 nz2).map (fun c => (c.formula, c.assignment)) =
      (specOppositePairs nz1 nz2).map fun p =>
        (specRenderFormula e1.symbol (specSubA p.1 p.2) e2.symbol (specSubB p.1 p.2),
          [(e1.symbol, p.1, specSubA p.1 p.2), (e2.symbol, p.2, specSubB p.1 p.2)]) := by
  rw [binaryFormulas_eq, specOppositePairs]
  induction nz1 with
  | nil => simp
  | cons a rest ih =>
      have ha : a ≠ 0 := h1 a (List.mem_cons_self a rest)
      have hrest : ∀ x ∈ rest, x ≠ 0 := fun x hx => h1 x (List.mem_cons_of_mem a hx)
      simp only [List.flatMap_cons, List.map_append]
      rw [ih hrest]
      congr 1
      have := binaryInner_spec e1 e2 a ha nz2 h2
      simpa using this

/-! ### Branch lemmas for the dispatcher -/

theorem sortElems_pair {e1 e2 : Element} (h : e1.atomicNumber ≤ e2.atomicNumber) :
    sortElems [e1, e2] = [e1, e2] := by
  simp [sortElems, List.insertionSort, List.orderedInsert, elemLE, h]

theorem analyzeCompound_user (getEN : Nat → Option ℚ) (l : List Element)
    (counts : List (Element × Nat)) (hc : counts ≠ []) :
    analyzeCompound getEN l counts = analyzeUserFormula getEN counts (sortElems l) := by
  simp [analyzeCompound, hc]

theorem analyzeCompound_noble (getEN : Nat → Option ℚ) (l : List Element)
    (hng : (sortElems l).filter (fun el => el.category = "noble gas") ≠ []) :
    analyzeCompound getEN l [] =
      { likelihood := "unlikely", formulas := [], bondType := "none"
        reason := nobleGasReason ((sortElems l).filter fun el => el.category = "noble gas")
        elements := sortElems l, enDiff := none, userSpecified := false } := by
  simp [analyzeCompound, hng]

theorem analyzeCompound_missingEN (getEN : Nat → Option ℚ) (l : List Element)
    (hng : (sortElems l).filter (fun el => el.category = "noble gas") = [])
    (hen : ((sortElems l).map fun el => getEN el.atomicNumber).any (fun en => en = none) = true) :
    analyzeCompound getEN l [] =
      { likelihood := "possible but unstable"
        formulas := [{ formula := String.join ((sortElems l).map fun el => el.symbol)
                       oxInfo := "", assignment := [] }]
        bondType := "unknown"
        reason := "Insufficient electronegativity data available for complete analysis."
        elements := sortElems l, enDiff := none, userSpecified := false } := by
  simp [analyzeCompound, hng, hen]

theorem analyzeCompound_dispatch (getEN : Nat → Option ℚ) (l : List Element)
    (hng : (sortElems l).filter (fun el => el.category = "noble gas") = [])
    (hen : ((sortElems l).map fun el => getEN el.atomicNumber).any (fun en => en = none) = false) :
    analyzeCompound getEN l [] =
      (match sortElems l with
       | [e1, e2] => analyzeBinaryCompound e1 e2
          (classifyBond (maxListQ (pairDiffs ((sortElems l).filterMap fun el => getEN el.atomicNumber))))
          (maxListQ (pairDiffs ((sortElems l).filterMap fun el => getEN el.atomicNumber)))
       | _ => analyzeMultiElementCompound (sortElems l)
          (classifyBond (maxListQ (pairDiffs ((sortElems l).filterMap fun el => getEN el.atomicNumber))))
          (maxListQ (pairDiffs ((sortElems l).filterMap fun el => getEN el.atomicNumber)))) := by
  simp [analyzeCompound, hng, hen]

theorem analyzeUserFormula_noble (getEN : Nat → Option ℚ)
    (counts : List (Element × Nat)) (elements : List Element)
    (hng : (sortCounts counts).filter (fun ec => ec.1.category = "noble gas") ≠ []) :
    analyzeUserFormula getEN counts elements =
      { likelihood := "unlikely"
        formulas := [{ formula := userFormulaStr (sortCounts counts)
                       oxInfo := "User-specified formula", assignment := [] }]
        bondType := "none"
        reason := nobleGasReason
          (((sortCounts counts).filter fun ec => ec.1.category = "noble gas").map fun ec => ec.1)
        elements, enDiff := none, userSpecified := true } := by
  simp [analyzeUserFormula, hng]

theorem analyzeUserFormula_missingEN (getEN : Nat → Option ℚ)
    (counts : List (Element × Nat)) (elements : List Element)
    (hng : (sortCounts counts).filter (fun ec => ec.1.category = "noble gas") = [])
    (hen : ((sortCounts counts).map fun ec => getEN ec.1.atomicNumber).any
      (fun en => en = none) = true) :
    analyzeUserFormula getEN counts elements =
      { likelihood := "possible but unstable"
        formulas := [{ formula := userFormulaStr (sortCounts counts)
                       oxInfo := "User-specified formula", assignment := [] }]
        bondType := "unknown"
        reason := "Insufficient electronegativity data available for complete analysis of your formula " ++
          userFormulaStr (sortCounts counts) ++ "."
        elements, enDiff := none, userSpecified := true } := by
  simp [analyzeUserFormula, hng, hen]

theorem analyzeUserFormula_balanced (getEN : Nat → Option ℚ)
    (counts : List (Element × Nat)) (elements : List Element)
    (assignment : List (String × Int × Nat))
    (hng : (sortCounts counts).filter (fun ec => ec.1.category = "noble gas") = [])
    (hen : ((sortCounts counts).map fun ec => getEN ec.1.atomicNumber).any
      (fun en => en = none) = false)
    (hbal : validateChargeBalance (sortCounts counts) = .balanced assignment) :
    (analyzeUserFormula getEN counts elements).formulas =
      [{ formula := userFormulaStr (sortCounts counts)
         oxInfo := renderAssign assignment, assignment }] := by
  simp [analyzeUserFormula, hng, hen, hbal]

theorem analyzeUserFormula_unbalanced (getEN : Nat → Option ℚ)
    (counts : List (Element × Nat)) (elements : List Element) (why : String)
    (hng : (sortCounts counts).filter (fun ec => ec.1.category = "noble gas") = [])
    (hen : ((sortCounts counts).map fun ec => getEN ec.1.atomicNumber).any
      (fun en => en = none) = false)
    (hbal : validateChargeBalance (sortCounts counts) = .unbalanced why) :
    analyzeUserFormula getEN counts elements =
      { likelihood := "possible but unstable"
        formulas := [{ formula := userFormulaStr (sortCounts counts)
                       oxInfo := "User-specified formula", assignment := [] }]
        bondType := classifyBond (maxListQ (pairDiffs
          ((sortCounts counts).filterMap fun ec => getEN ec.1.atomicNumber)))
        reason := mismatchReason (userFormulaStr (sortCounts counts)) why
        elements
        enDiff := some (maxListQ (pairDiffs
          ((sortCounts counts).filterMap fun ec => getEN ec.1.atomicNumber)))
        userSpecified := true } := by
  simp [analyzeUserFormula, hng, hen, hbal]

theorem mem_nonZeroOx_ne_zero (e : Element) : ∀ a ∈ nonZeroOx e, a ≠ 0 := by
  intro a ha
  simp only [nonZeroOx, List.mem_filter, decide_eq_true_eq] at ha
  exact ha.2

theorem analyzeBinaryCompound_formulas (e1 e2 : Element) (bt : String) (d : ℚ)
    (hz1 : nonZeroOx e1 ≠ []) (hz2 : nonZeroOx e2 ≠ []) :
    (analyzeBinaryCompound e1 e2 bt d).formulas =
      binaryFormulas e1 e2 (nonZeroOx e1) (nonZeroOx e2) := by
  simp only [analyzeBinaryCompound]
  rw [if_neg (by simp [hz1, hz2])]

/-- **C5** For every two-element input without user counts where both elements
have a nonzero oxidation state, the binary solver emits one candidate per
opposite-sign pair `(oxA, oxB)` of nonzero oxidation states and skips every
same-sign pair; each candidate's formula places element 1 (lower atomic number)
first with subscript `|oxB|/gcd(|oxA|,|oxB|)` and element 2 second with
subscript `|oxA|/gcd(|oxA|,|oxB|)`, eliding any subscript equal to 1. -/
theorem binary_solver_gcd_pairs (getEN : Nat → Option ℚ) (e1 e2 : Element)
    (hord : e1.atomicNumber ≤ e2.atomicNumber)
    (hng1 : e1.category ≠ "noble gas") (hng2 : e2.category ≠ "noble gas")
    (hen1 : getEN e1.atomicNumber ≠ none) (hen2 : getEN e2.atomicNumber ≠ none)
    (hz1 : nonZeroOx e1 ≠ []) (hz2 : nonZeroOx e2 ≠ []) :
    (analyzeCompound getEN [e1, e2] []).formulas.map (fun c => (c.formula, c.assignment)) =
      (specOppositePairs (nonZeroOx e1) (nonZeroOx e2)).map fun p =>
        (specRenderFormula e1.symbol (specSubA p.1 p.2) e2.symbol (specSubB p.1 p.2),
          [(e1.symbol, p.1, specSubA p.1 p.2), (e2.symbol, p.2, specSubB p.1 p.2)]) := by
  have hsort := sortElems_pair hord
  have hng : (sortElems [e1, e2]).filter (fun el => el.category = "noble gas") = [] := by
    rw [hsort]; simp [hng1, hng2]
  have hen : ((sortElems [e1, e2]).map fun el => getEN el.atomicNumber).any
      (fun en => en = none) = false := by
    rw [hsort]; simp [hen1, hen2]
  rw [analyzeCompound_dispatch getEN [e1, e2] hng hen]
  rw [hsort]
  rw [analyzeBinaryCompound_formulas _ _ _ _ hz1 hz2]
  exact binaryFormulas_spec e1 e2 _ _ (mem_nonZeroOx_ne_zero e1) (mem_nonZeroOx_ne_zero e2)

/-- Witness for `binary_solver_gcd_pairs`: Hydrogen (−1, 0, 1) with
Oxygen (−2, −1, 0, 1, 2) takes the binary path; the solver emits the four
opposite-sign pairs and in particular the pair (+1, −2) yields the formula
`H2O` (subscripts 2 = |−2|/1 and 1 = |+1|/1, the 1 elided). -/
theorem binary_solver_gcd_pairs_witness :
    ((analyzeCompound enTable [elemH, elemO] []).formulas.map
        (fun c => (c.formula, c.assignment)) =
      (specOppositePairs (nonZeroOx elemH) (nonZeroOx elemO)).map fun p =>
        (specRenderFormula elemH.symbol (specSubA p.1 p.2) elemO.symbol (specSubB p.1 p.2),
          [(elemH.symbol, p.1, specSubA p.1 p.2), (elemO.symbol, p.2, specSubB p.1 p.2)])) ∧
      (analyzeCompound enTable [elemH, elemO] []).formulas.map (fun c => c.formula) =
        ["HO", "H2O", "H2O", "HO"] := by
  constructor
  · exact binary_solver_gcd_pairs enTable elemH elemO (by decide) (by decide) (by decide)
      (by with_unfolding_all decide) (by with_unfolding_all decide) (by decide) (by decide)
  · with_unfolding_all decide

/-- **C10** For the two-element input Hydrogen/Oxygen (no user counts) the
binary solver's candidate sequence contains two distinct entries with the same
formula string `H2O` — proportional opposite-sign pairs (−1, +2) and (+1, −2)
each produce a candidate and formulas are not deduplicated. -/
theorem binary_duplicate_formulas :
    (analyzeCompound enTable [elemH, elemO] []).formulas.length = 4 ∧
      ((analyzeCompound enTable [elemH, elemO] []).formulas.getD 1 default).formula =
        ((analyzeCompound enTable [elemH, elemO] []).formulas.getD 2 default).formula ∧
      (analyzeCompound enTable [elemH, elemO] []).formulas.getD 1 default ≠
        (analyzeCompound enTable [elemH, elemO] []).formulas.getD 2 default := by
  with_unfolding_all decide

/-! ### Noble-gas absorption (C3) -/

theorem mem_sortElems {e : Element} {l : List Element} : e ∈ sortElems l ↔ e ∈ l :=
  (List.perm_insertionSort elemLE l).mem_iff

theorem mem_sortCounts {ec : Element × Nat} {l : List (Element × Nat)} :
    ec ∈ sortCounts l ↔ ec ∈ l :=
  (List.perm_insertionSort countLE l).mem_iff

/-- **C3 (amended)** Any input whose element set contains a noble gas yields
`likelihood = unlikely`, `bondType = none` and a rationale naming noble
gas(es), provided either no user counts are given or some counted element is a
noble gas (the user-formula path inspects only the counted elements). -/
theorem noble_gas_absorption (getEN : Nat → Option ℚ) (l : List Element)
    (counts : List (Element × Nat))
    (hl : ∃ e ∈ l, e.category = "noble gas")
    (hc : counts = [] ∨ ∃ ec ∈ counts, ec.1.category = "noble gas") :
    (analyzeCompound getEN l counts).likelihood = "unlikely" ∧
      (analyzeCompound getEN l counts).bondType = "none" ∧
      ∃ gases, gases ≠ [] ∧ (∀ e ∈ gases, e.category = "noble gas") ∧
        (analyzeCompound getEN l counts).reason = nobleGasReason gases := by
  rcases hc with hc | hc
  · subst hc
    obtain ⟨e, hmem, hcat⟩ := hl
    have hfil : (sortElems l).filter (fun el => el.category = "noble gas") ≠ [] := by
      have : e ∈ (sortElems l).filter (fun el => el.category = "noble gas") := by
        rw [List.mem_filter]
        exact ⟨mem_sortElems.mpr hmem, by simp [hcat]⟩
      exact List.ne_nil_of_mem this
    rw [analyzeCompound_noble getEN l hfil]
    refine ⟨rfl, rfl, (sortElems l).filter (fun el => el.category = "noble gas"), hfil, ?_, rfl⟩
    intro x hx
    rw [List.mem_filter] at hx
    simpa using hx.2
  · obtain ⟨ec, hmem, hcat⟩ := hc
    have hcne : counts ≠ [] := List.ne_nil_of_mem hmem
    have hfil : (sortCounts counts).filter (fun p => p.1.category = "noble gas") ≠ [] := by
      have : ec ∈ (sortCounts counts).filter (fun p => p.1.category = "noble gas") := by
        rw [List.mem_filter]
        exact ⟨mem_sortCounts.mpr hmem, by simp [hcat]⟩
      exact List.ne_nil_of_mem this
    rw [analyzeCompound_user getEN l counts hcne,
      analyzeUserFormula_noble getEN counts (sortElems l) hfil]
    have hmapne : (((sortCounts counts).filter (fun p => p.1.category = "noble gas")).map
        (fun p => p.1)) ≠ [] := fun h => hfil (List.map_eq_nil_iff.mp h)
    have hall : ∀ x ∈ ((sortCounts counts).filter
        (fun p => p.1.category = "noble gas")).map (fun p => p.1), x.category = "noble gas" := by
      intro x hx
      rw [List.mem_map] at hx
      obtain ⟨p, hp, rfl⟩ := hx
      rw [List.mem_filter] at hp
      simpa using hp.2
    refine ⟨rfl, rfl, ?_⟩
    refine ⟨((sortCounts counts).filter (fun p => p.1.category = "noble gas")).map
      (fun p => p.1), hmapne, hall, ?_⟩
    rfl

/-- Witness for `noble_gas_absorption`: Helium together with Oxygen, no user
counts. -/
theorem noble_gas_absorption_witness :
    (analyzeCompound enTable [elemHe, elemO] []).likelihood = "unlikely" ∧
      (analyzeCompound enTable [elemHe, elemO] []).bondType = "none" ∧
      ∃ gases, gases ≠ [] ∧ (∀ e ∈ gases, e.category = "noble gas") ∧
        (analyzeCompound enTable [elemHe, elemO] []).reason = nobleGasReason gases :=
  noble_gas_absorption enTable [elemHe, elemO] []
    ⟨elemHe, by decide, by decide⟩ (Or.inl rfl)

set_option maxHeartbeats 2000000 in
set_option maxRecDepth 100000 in
/-- **C3 (counterexample)** The claim as stated fails when user counts are
supplied that do not include the noble gas: with elements Hydrogen and Helium
but a user count only for Hydrogen (H × 2), the user-formula path never sees
Helium, and the result is neither `unlikely` nor `bondType = none`. -/
theorem noble_gas_absorption_cex :
    elemHe ∈ [elemH, elemHe] ∧ elemHe.category = "noble gas" ∧
      ¬ ((analyzeCompound enTable [elemH, elemHe] [(elemH, 2)]).likelihood = "unlikely" ∧
        (analyzeCompound enTable [elemH, elemHe] [(elemH, 2)]).bondType = "none") := by
  refine ⟨by decide, by decide, ?_⟩
  with_unfolding_all decide

/-! ### Sorted lists with distinct atomic numbers are unique -/

theorem sorted_lt_of_le_nodup :
    ∀ {l : List Element}, l.Sorted elemLE → keysNodup l → l.Sorted elemLT := by
  intro l
  induction l with
  | nil => intro _ _; exact List.sorted_nil
  | cons a t ih =>
      intro hs hn
      rw [List.sorted_cons] at hs ⊢
      have hmem : a.atomicNumber ∉ t.map (fun e => e.atomicNumber) := by
        simp only [keysNodup, List.map_cons, List.nodup_cons] at hn
        exact hn.1
      have hnt : keysNodup t := by
        simp only [keysNodup, List.map_cons, List.nodup_cons] at hn
        exact hn.2
      refine ⟨?_, ih hs.2 hnt⟩
      intro b hb
      have hle : a.atomicNumber ≤ b.atomicNumber := hs.1 b hb
      have hne : a.atomicNumber ≠ b.atomicNumber := fun he =>
        hmem (he ▸ List.mem_map_of_mem (fun e => e.atomicNumber) hb)
      exact lt_of_le_of_ne hle hne

theorem sortElems_sorted (l : List Element) : (sortElems l).Sorted elemLE :=
  List.sorted_insertionSort elemLE l

theorem sortElems_perm (l : List Element) : (sortElems l).Perm l :=
  List.perm_insertionSort elemLE l

theorem sorted_key_unique {l1 l2 : List Element} (hp : l1.Perm l2)
    (h1 : l1.Sorted elemLE) (h2 : l2.Sorted elemLE) (hn : keysNodup l1) : l1 = l2 := by
  have hn2 : keysNodup l2 := (hp.map (fun e => e.atomicNumber)).nodup hn
  exact List.eq_of_perm_of_sorted hp (sorted_lt_of_le_nodup h1 hn)
    (sorted_lt_of_le_nodup h2 hn2)

theorem sortElems_eq_of_perm {l1 l2 : List Element} (hp : l1.Perm l2) (hn : keysNodup l1) :
    sortElems l1 = sortElems l2 := by
  have hperm : (sortElems l1).Perm (sortElems l2) :=
    (sortElems_perm l1).trans (hp.trans (sortElems_perm l2).symm)
  have hn1 : keysNodup (sortElems l1) :=
    (((sortElems_perm l1).symm).map (fun e => e.atomicNumber)).nodup hn
  exact sorted_key_unique hperm (sortElems_sorted l1) (sortElems_sorted l2) hn1

theorem sortCounts_fst_sorted (cs : List (Element × Nat)) :
    ((sortCounts cs).map (fun p => p.1)).Sorted elemLE := by
  have h := List.sorted_insertionSort countLE cs
  rw [List.Sorted, List.pairwise_map]
  exact h

theorem sortCounts_fst_eq {cs : List (Element × Nat)} {l : List Element}
    (hperm : (cs.map (fun p => p.1)).Perm l) (hn : keysNodup l) :
    (sortCounts cs).map (fun p => p.1) = sortElems l := by
  have hp2 : ((sortCounts cs).map (fun p => p.1)).Perm (sortElems l) :=
    (((List.perm_insertionSort countLE cs).map (fun p => p.1)).trans hperm).trans
      (sortElems_perm l).symm
  have hnsort : keysNodup (sortElems l) :=
    ((sortElems_perm l).symm.map (fun e => e.atomicNumber)).nodup hn
  have hnd : keysNodup ((sortCounts cs).map fun p => p.1) :=
    ((hp2.map (fun e => e.atomicNumber)).symm).nodup hnsort
  exact sorted_key_unique hp2 (sortCounts_fst_sorted cs) (sortElems_sorted l) hnd

/-! ### The bond type is the threshold classification on every path -/

theorem analyzeBinaryCompound_bondType (e1 e2 : Element) (bt : String) (d : ℚ) :
    (analyzeBinaryCompound e1 e2 bt d).bondType = bt := by
  by_cases h : nonZeroOx e1 = [] ∨ nonZeroOx e2 = []
  · simp only [analyzeBinaryCompound, if_pos h]
  · simp only [analyzeBinaryCompound, if_neg h]

theorem analyzeMultiElementCompound_bondType (els : List Element) (bt : String) (d : ℚ) :
    (analyzeMultiElementCompound els bt d).bondType = bt := by
  by_cases h : (elementOxStatesOf els).filter (fun p => p.2 = []) ≠ []
  · simp only [analyzeMultiElementCompound, if_pos h]
  · simp only [analyzeMultiElementCompound, if_neg h]

theorem analyzeUserFormula_bondType (getEN : Nat → Option ℚ)
    (counts : List (Element × Nat)) (els : List Element)
    (hng : (sortCounts counts).filter (fun ec => ec.1.category = "noble gas") = [])
    (hen : ((sortCounts counts).map fun ec => getEN ec.1.atomicNumber).any
      (fun en => en = none) = false) :
    (analyzeUserFormula getEN counts els).bondType =
      classifyBond (maxListQ (pairDiffs
        ((sortCounts counts).filterMap fun ec => getEN ec.1.atomicNumber))) := by
  simp only [analyzeUserFormula, hng, hen]
  simp only [ne_eq, not_true_eq_false, if_false, Bool.false_eq_true, reduceIte]
  split <;> rfl

theorem classifyBond_cases (d : ℚ) :
    (classifyBond d = "ionic" ↔ 1.7 < d) ∧
      (classifyBond d = "polar covalent" ↔ (0.4 < d ∧ d ≤ 1.7)) ∧
      (classifyBond d = "nonpolar covalent" ↔ d ≤ 0.4) := by
  unfold classifyBond
  split_ifs with h1 h2
  · refine ⟨iff_of_true rfl h1, iff_of_false (by decide) ?_, iff_of_false (by decide) ?_⟩
    · rintro ⟨-, hle⟩; linarith
    · intro hle; linarith
  · refine ⟨iff_of_false (by decide) h1, iff_of_true rfl ⟨h2, le_of_not_lt h1⟩,
      iff_of_false (by decide) ?_⟩
    intro hle; linarith
  · exact ⟨iff_of_false (by decide) h1, iff_of_false (by decide) (fun hc => h2 hc.1),
      iff_of_true rfl (le_of_not_lt h2)⟩

/-- **C4** For every input with no noble gas and electronegativity available
for every element (user counts, when present, covering exactly the input's
elements), letting Δ be the maximum pairwise absolute electronegativity
difference, the returned bondType is ionic exactly when Δ > 1.7,
polar-covalent exactly when 0.4 < Δ ≤ 1.7, and nonpolar-covalent exactly when
Δ ≤ 0.4. -/
theorem bond_classification (getEN : Nat → Option ℚ) (l : List Element)
    (counts : List (Element × Nat))
    (hnd : keysNodup l)
    (hcnt : counts = [] ∨ (counts.map fun p => p.1).Perm l)
    (hng : ∀ e ∈ l, e.category ≠ "noble gas")
    (hen : ∀ e ∈ l, getEN e.atomicNumber ≠ none) :
    ((analyzeCompound getEN l counts).bondType = "ionic" ↔
        1.7 < maxListQ (pairDiffs ((sortElems l).filterMap fun e => getEN e.atomicNumber))) ∧
      ((analyzeCompound getEN l counts).bondType = "polar covalent" ↔
        (0.4 < maxListQ (pairDiffs ((sortElems l).filterMap fun e => getEN e.atomicNumber)) ∧
          maxListQ (pairDiffs ((sortElems l).filterMap fun e => getEN e.atomicNumber)) ≤ 1.7)) ∧
      ((analyzeCompound getEN l counts).bondType = "nonpolar covalent" ↔
        maxListQ (pairDiffs ((sortElems l).filterMap fun e => getEN e.atomicNumber)) ≤ 0.4) := by
  have hb : (analyzeCompound getEN l counts).bondType =
      classifyBond (maxListQ (pairDiffs ((sortElems l).filterMap fun e => getEN e.atomicNumber))) := by
    by_cases hc0 : counts = []
    · subst hc0
      have hngf : (sortElems l).filter (fun el => el.category = "noble gas") = [] := by
        rw [List.filter_eq_nil_iff]
        intro a ha
        simpa using hng a (mem_sortElems.mp ha)
      have henf : ((sortElems l).map fun el => getEN el.atomicNumber).any
          (fun en => en = none) = false := by
        rw [List.any_eq_false]
        intro x hx
        rw [List.mem_map] at hx
        obtain ⟨e, he, rfl⟩ := hx
        simpa using hen e (mem_sortElems.mp he)
      rw [analyzeCompound_dispatch getEN l hngf henf]
      split
      · exact analyzeBinaryCompound_bondType _ _ _ _
      · exact analyzeMultiElementCompound_bondType _ _ _
    · have hperm : (counts.map fun p => p.1).Perm l := by
        rcases hcnt with h | h
        · exact absurd h hc0
        · exact h
      have hfst : (sortCounts counts).map (fun p => p.1) = sortElems l :=
        sortCounts_fst_eq hperm hnd
      have hmem1 : ∀ p ∈ sortCounts counts, p.1 ∈ l := by
        intro p hp
        have hm : p.1 ∈ (sortCounts counts).map (fun p => p.1) :=
          List.mem_map_of_mem (fun p => p.1) hp
        rw [hfst] at hm
        exact mem_sortElems.mp hm
      have hngf : (sortCounts counts).filter (fun ec => ec.1.category = "noble gas") = [] := by
        rw [List.filter_eq_nil_iff]
        intro p hp
        simpa using hng p.1 (hmem1 p hp)
      have henf : ((sortCounts counts).map fun ec => getEN ec.1.atomicNumber).any
          (fun en => en = none) = false := by
        rw [List.any_eq_false]
        intro x hx
        rw [List.mem_map] at hx
        obtain ⟨p, hp, rfl⟩ := hx
        simpa using hen p.1 (hmem1 p hp)
      have hlist : ((sortCounts counts).filterMap fun ec => getEN ec.1.atomicNumber) =
          ((sortElems l).filterMap fun e => getEN e.atomicNumber) := by
        rw [← hfst, List.filterMap_map]
        rfl
      rw [analyzeCompound_user getEN l counts hc0,
        analyzeUserFormula_bondType getEN counts (sortElems l) hngf henf, hlist]
  rw [hb]
  exact classifyBond_cases _

/-- Witness for `bond_classification`: Sodium and Chlorine, Δ = 2.23 > 1.7,
classified ionic. -/
theorem bond_classification_witness :
    (((analyzeCompound enTable [elemNa, elemCl] []).bondType = "ionic" ↔
        1.7 < maxListQ (pairDiffs
          ((sortElems [elemNa, elemCl]).filterMap fun e => enTable e.atomicNumber))) ∧
      ((analyzeCompound enTable [elemNa, elemCl] []).bondType = "polar covalent" ↔
        (0.4 < maxListQ (pairDiffs
            ((sortElems [elemNa, elemCl]).filterMap fun e => enTable e.atomicNumber)) ∧
          maxListQ (pairDiffs
            ((sortElems [elemNa, elemCl]).filterMap fun e => enTable e.atomicNumber)) ≤ 1.7)) ∧
      ((analyzeCompound enTable [elemNa, elemCl] []).bondType = "nonpolar covalent" ↔
        maxListQ (pairDiffs
          ((sortElems [elemNa, elemCl]).filterMap fun e => enTable e.atomicNumber)) ≤ 0.4)) ∧
      (analyzeCompound enTable [elemNa, elemCl] []).bondType = "ionic" := by
  refine ⟨bond_classification enTable [elemNa, elemCl] [] (by decide) (Or.inl rfl)
    (by decide) (by decide), ?_⟩
  with_unfolding_all decide

/-! ### The multi-element path's likelihood (C7) and candidate caps (C2) -/

theorem analyzeMultiElementCompound_not_likely (els : List Element) (bt : String) (d : ℚ) :
    (analyzeMultiElementCompound els bt d).likelihood ≠ "likely" := by
  by_cases h : (elementOxStatesOf els).filter (fun p => p.2 = []) ≠ []
  · simp only [analyzeMultiElementCompound, if_pos h]
    simp
  · simp only [analyzeMultiElementCompound, if_neg h]
    split_ifs <;> simp

theorem analyzeMultiElementCompound_formulas_le (els : List Element) (bt : String) (d : ℚ) :
    (analyzeMultiElementCompound els bt d).formulas.length ≤ 20 := by
  by_cases h : (elementOxStatesOf els).filter (fun p => p.2 = []) ≠ []
  · simp only [analyzeMultiElementCompound, if_pos h]
    simp
  · simp only [analyzeMultiElementCompound, if_neg h]
    simp only [List.length_take]
    exact min_le_left _ _

theorem analyzeUserFormula_formulas_length (getEN : Nat → Option ℚ)
    (counts : List (Element × Nat)) (els : List Element) :
    (analyzeUserFormula getEN counts els).formulas.length = 1 := by
  by_cases h1 : (sortCounts counts).filter (fun ec => ec.1.category = "noble gas") = []
  · by_cases h2 : ((sortCounts counts).map fun ec => getEN ec.1.atomicNumber).any
        (fun en => en = none) = true
    · rw [analyzeUserFormula_missingEN getEN counts els h1 h2]
      rfl
    · have h2' := eq_false_of_ne_true h2
      cases hv : validateChargeBalance (sortCounts counts) with
      | balanced a =>
          rw [analyzeUserFormula_balanced getEN counts els a h1 h2' hv]
          rfl
      | unbalanced w =>
          rw [analyzeUserFormula_unbalanced getEN counts els w h1 h2' hv]
          rfl
  · rw [analyzeUserFormula_noble getEN counts els (by simpa using h1)]
    rfl

/-- **C7** For every input of 3 or more elements without user-specified counts,
the result's likelihood is never `likely`: the structural multi-element path
returns only `unlikely` or `possible but unstable` (no Known-Compound Registry
lookup is reachable on this path, so nothing raises it to `likely`). -/
theorem multi_element_never_likely (getEN : Nat → Option ℚ) (l : List Element)
    (hlen : 3 ≤ l.length) :
    (analyzeCompound getEN l []).likelihood ≠ "likely" := by
  by_cases hng : (sortElems l).filter (fun el => el.category = "noble gas") = []
  · by_cases hen : ((sortElems l).map fun el => getEN el.atomicNumber).any
        (fun en => en = none) = true
    · rw [analyzeCompound_missingEN getEN l hng hen]
      simp
    · rw [analyzeCompound_dispatch getEN l hng (eq_false_of_ne_true hen)]
      split
      · next e1 e2 heq =>
          exfalso
          have h2 : (sortElems l).length = 2 := by rw [heq]; rfl
          rw [(sortElems_perm l).length_eq] at h2
          omega
      · exact analyzeMultiElementCompound_not_likely _ _ _
  · rw [analyzeCompound_noble getEN l (by simpa using hng)]
    simp

/-- Witness for `multi_element_never_likely`: Hydrogen, Carbon, Oxygen. -/
theorem multi_element_never_likely_witness :
    (analyzeCompound enTable [elemH, elemC, elemO] []).likelihood ≠ "likely" :=
  multi_element_never_likely enTable [elemH, elemC, elemO] (by decide)

/-- **C2 (amended)** Every input with user-specified counts, and every input
whose element count is not exactly 2, surfaces at most 20 candidates.  (The
two-element path emits one candidate per opposite-sign oxidation-state pair
without any cap — see `candidates_cap_cex`.) -/
theorem candidates_cap (getEN : Nat → Option ℚ) (l : List Element)
    (counts : List (Element × Nat)) (h : counts ≠ [] ∨ l.length ≠ 2) :
    (analyzeCompound getEN l counts).formulas.length ≤ 20 := by
  by_cases hc0 : counts = []
  · have hlen2 : l.length ≠ 2 := by
      rcases h with h | h
      · exact absurd hc0 h
      · exact h
    subst hc0
    by_cases hng : (sortElems l).filter (fun el => el.category = "noble gas") = []
    · by_cases hen : ((sortElems l).map fun el => getEN el.atomicNumber).any
          (fun en => en = none) = true
      · rw [analyzeCompound_missingEN getEN l hng hen]
        simp
      · rw [analyzeCompound_dispatch getEN l hng (eq_false_of_ne_true hen)]
        split
        · next e1 e2 heq =>
            exfalso
            have h2 : (sortElems l).length = 2 := by rw [heq]; rfl
            rw [(sortElems_perm l).length_eq] at h2
            omega
        · exact analyzeMultiElementCompound_formulas_le _ _ _
    · rw [analyzeCompound_noble getEN l (by simpa using hng)]
      simp
  · rw [analyzeCompound_user getEN l counts hc0,
      analyzeUserFormula_formulas_length getEN counts (sortElems l)]
    decide

/-- Witness for `candidates_cap`: a three-element input. -/
theorem candidates_cap_witness :
    (analyzeCompound enTable [elemH, elemC, elemO] []).formulas.length ≤ 20 :=
  candidates_cap enTable [elemH, elemC, elemO] [] (Or.inr (by decide))

/-- **C2 (counterexample)** The binary path has no cap: Oxygen (4 nonzero
states) with Osmium (12 nonzero states) has 2·8 + 2·4 = 24 opposite-sign
pairs, so the two-element input surfaces 24 > 20 candidates. -/
theorem candidates_cap_cex :
    ¬ ((analyzeCompound enTable [elemOs, elemO] []).formulas.length ≤ 20) := by
  with_unfolding_all decide

/-! ### Soundness and completeness of the user-formula balance search (C1, C9) -/

theorem assignSum_append (l : List (String × Int × Nat)) (t : String × Int × Nat) :
    assignSum (l ++ [t]) = assignSum l + t.2.1 * (t.2.2 : Int) := by
  simp [assignSum]

theorem findBalance_sound :
    ∀ (eos : List (Element × Nat × List Int)) (charge : Int)
      (sel r : List (String × Int × Nat)),
      findBalance eos charge sel = some r → charge = assignSum sel → assignSum r = 0 := by
  intro eos
  induction eos with
  | nil =>
      intro charge sel r h hch
      simp only [findBalance] at h
      by_cases h0 : charge = 0
      · rw [if_pos h0] at h
        injection h with h
        subst h
        rw [← hch, h0]
      · rw [if_neg h0] at h
        cases h
  | cons hd rest ih =>
      obtain ⟨el, count, oxs⟩ := hd
      intro charge sel r h hch
      simp only [findBalance] at h
      revert h
      induction oxs with
      | nil => intro h; cases h
      | cons ox more ihox =>
          intro h
          rw [List.foldr_cons] at h
          cases hfb : findBalance rest (charge + ox * (count : Int))
              (sel ++ [(el.symbol, ox, count)]) with
          | some r' =>
              rw [hfb] at h
              simp only [] at h
              injection h with h
              subst h
              refine ih _ _ _ hfb ?_
              rw [assignSum_append, ← hch]
          | none =>
              rw [hfb] at h
              simp only [] at h
              exact ihox h

theorem findBalance_some_choice :
    ∀ (eos : List (Element × Nat × List Int)) (charge : Int)
      (sel r : List (String × Int × Nat)),
      findBalance eos charge sel = some r →
      ∃ choice, ChoiceOk eos choice ∧ charge + choiceSum eos choice = 0 := by
  intro eos
  induction eos with
  | nil =>
      intro charge sel r h
      simp only [findBalance] at h
      by_cases h0 : charge = 0
      · exact ⟨[], trivial, by simp [choiceSum, h0]⟩
      · rw [if_neg h0] at h
        cases h
  | cons hd rest ih =>
      obtain ⟨el, count, oxs⟩ := hd
      intro charge sel r h
      simp only [findBalance] at h
      revert h
      induction oxs with
      | nil => intro h; cases h
      | cons ox more ihox =>
          intro h
          rw [List.foldr_cons] at h
          cases hfb : findBalance rest (charge + ox * (count : Int))
              (sel ++ [(el.symbol, ox, count)]) with
          | some r' =>
              obtain ⟨choice, hok, hsum⟩ := ih _ _ _ hfb
              refine ⟨ox :: choice, ⟨List.mem_cons_self ox more, hok⟩, ?_⟩
              simp only [choiceSum]
              omega
          | none =>
              rw [hfb] at h
              simp only [] at h
              obtain ⟨choice, hok, hsum⟩ := ihox h
              exact ⟨choice.headD 0 :: choice.tail, by
                cases choice with
                | nil => simp [ChoiceOk] at hok
                | cons c cs => exact ⟨List.mem_cons_of_mem ox hok.1, hok.2⟩, by
                cases choice with
                | nil => simp [ChoiceOk] at hok
                | cons c cs => simpa [choiceSum] using hsum⟩

theorem foldr_none_all (el : Element) (count : Nat)
    (rest : List (Element × Nat × List Int)) (charge : Int)
    (sel : List (String × Int × Nat)) :
    ∀ (oxs : List Int),
      (oxs.foldr (fun oxState res =>
        match findBalance rest (charge + oxState * (count : Int))
            (sel ++ [(el.symbol, oxState, count)]) with
        | some r => some r
        | none => res) none) = none →
      ∀ o ∈ oxs, findBalance rest (charge + o * (count : Int))
        (sel ++ [(el.symbol, o, count)]) = none := by
  intro oxs
  induction oxs with
  | nil => intro _ o ho; cases ho
  | cons o2 more2 ih2 =>
      intro h o ho
      rw [List.foldr_cons] at h
      cases hfb : findBalance rest (charge + o2 * (count : Int))
          (sel ++ [(el.symbol, o2, count)]) with
      | some r' => rw [hfb] at h; simp only [] at h; cases h
      | none =>
          rw [hfb] at h
          simp only [] at h
          rcases List.mem_cons.mp ho with rfl | ho'
          · exact hfb
          · exact ih2 h o ho'

theorem findBalance_complete :
    ∀ (eos : List (Element × Nat × List Int)) (charge : Int)
      (sel : List (String × Int × Nat)),
      findBalance eos charge sel = none →
      ∀ choice, ChoiceOk eos choice → charge + choiceSum eos choice ≠ 0 := by
  intro eos
  induction eos with
  | nil =>
      intro charge sel h choice hok
      simp only [findBalance] at h
      by_cases h0 : charge = 0
      · rw [if_pos h0] at h; cases h
      · cases choice with
        | nil => simpa [choiceSum] using h0
        | cons c cs => simp [ChoiceOk] at hok
  | cons hd rest ih =>
      obtain ⟨el, count, oxs⟩ := hd
      intro charge sel h choice hok
      cases choice with
      | nil => simp [ChoiceOk] at hok
      | cons ox more =>
          obtain ⟨hox, hrest⟩ := hok
          simp only [findBalance] at h
          have hfb := foldr_none_all el count rest charge sel oxs h ox hox
          have := ih _ _ hfb more hrest
          simp only [choiceSum]
          omega

theorem validate_unbalanced_of_no_choice (ecs : List (Element × Nat))
    (hnb : ∀ choice, ChoiceOk (userEos ecs) choice → choiceSum (userEos ecs) choice ≠ 0) :
    ∃ why, validateChargeBalance ecs = .unbalanced why := by
  unfold validateChargeBalance
  by_cases hempty : (ecs.map fun ec => (ec.1, ec.2, nonZeroOxV ec.1)).any
      (fun eos => eos.2.2 = []) = true
  · rw [if_pos hempty]
    exact ⟨_, rfl⟩
  · rw [if_neg hempty]
    cases hfb : findBalance (ecs.map fun ec => (ec.1, ec.2, nonZeroOxV ec.1)) 0 [] with
    | some r =>
        obtain ⟨choice, hok, hsum⟩ := findBalance_some_choice _ 0 [] r hfb
        exact absurd (by simpa using hsum) (hnb choice hok)
    | none => exact ⟨_, rfl⟩

/-- **C9** For every user-specified atom-count input with no noble gas among
the counted elements and electronegativity available for each, for which no
assignment of one oxidation state per element balances
`Σ oxidationState × count` to zero, the likelihood is
`possible but unstable` — never `unlikely` — with a rationale noting the
charge mismatch. -/
theorem unbalanced_user_counts (getEN : Nat → Option ℚ) (l : List Element)
    (counts : List (Element × Nat)) (hcne : counts ≠ [])
    (hng : ∀ ec ∈ counts, ec.1.category ≠ "noble gas")
    (hen : ∀ ec ∈ counts, getEN ec.1.atomicNumber ≠ none)
    (hnb : ∀ choice, ChoiceOk (userEos (sortCounts counts)) choice →
        choiceSum (userEos (sortCounts counts)) choice ≠ 0) :
    (analyzeCompound getEN l counts).likelihood = "possible but unstable" ∧
      (analyzeCompound getEN l counts).likelihood ≠ "unlikely" ∧
      ∃ why, (analyzeCompound getEN l counts).reason =
        mismatchReason (userFormulaStr (sortCounts counts)) why := by
  have hngf : (sortCounts counts).filter (fun ec => ec.1.category = "noble gas") = [] := by
    rw [List.filter_eq_nil_iff]
    intro p hp
    simpa using hng p (mem_sortCounts.mp hp)
  have henf : ((sortCounts counts).map fun ec => getEN ec.1.atomicNumber).any
      (fun en => en = none) = false := by
    rw [List.any_eq_false]
    intro x hx
    rw [List.mem_map] at hx
    obtain ⟨p, hp, rfl⟩ := hx
    simpa using hen p (mem_sortCounts.mp hp)
  obtain ⟨why, hwhy⟩ := validate_unbalanced_of_no_choice (sortCounts counts) hnb
  rw [analyzeCompound_user getEN l counts hcne,
    analyzeUserFormula_unbalanced getEN counts (sortElems l) why hngf henf hwhy]
  exact ⟨rfl, by simp, why, rfl⟩

/-- Witness for `unbalanced_user_counts`: a lone Hydrogen count (H × 1) can
only contribute −1 or +1, never 0. -/
theorem unbalanced_user_counts_witness :
    (analyzeCompound enTable [elemH, elemO] [(elemH, 1)]).likelihood = "possible but unstable" ∧
      (analyzeCompound enTable [elemH, elemO] [(elemH, 1)]).likelihood ≠ "unlikely" ∧
      ∃ why, (analyzeCompound enTable [elemH, elemO] [(elemH, 1)]).reason =
        mismatchReason (userFormulaStr (sortCounts [(elemH, 1)])) why := by
  refine unbalanced_user_counts enTable [elemH, elemO] [(elemH, 1)] (by decide) (by decide)
    (by decide) ?_
  intro choice hok
  have he : userEos (sortCounts [(elemH, 1)]) = [(elemH, 1, [-1, 1])] := by decide
  rw [he] at hok ⊢
  cases choice with
  | nil => simp [ChoiceOk] at hok
  | cons ox more =>
      obtain ⟨hox, hmore⟩ := hok
      cases more with
      | cons m ms => simp [ChoiceOk] at hmore
      | nil => fin_cases hox <;> decide

/-! ### Order independence (C6) -/

theorem analyzeUserFormula_elements (getEN : Nat → Option ℚ)
    (counts : List (Element × Nat)) (els : List Element) :
    (analyzeUserFormula getEN counts els).elements = els := by
  by_cases h1 : (sortCounts counts).filter (fun ec => ec.1.category = "noble gas") ≠ []
  · simp only [analyzeUserFormula, if_pos h1]
  · simp only [analyzeUserFormula, if_neg h1]
    by_cases h2 : ((sortCounts counts).map fun ec => getEN ec.1.atomicNumber).any
        (fun en => en = none) = true
    · rw [if_pos h2]
    · rw [if_neg h2]
      split <;> rfl

theorem analyzeBinaryCompound_elements (e1 e2 : Element) (bt : String) (d : ℚ) :
    (analyzeBinaryCompound e1 e2 bt d).elements = [e1, e2] := by
  by_cases h : nonZeroOx e1 = [] ∨ nonZeroOx e2 = []
  · simp only [analyzeBinaryCompound, if_pos h]
  · simp only [analyzeBinaryCompound, if_neg h]

theorem analyzeMultiElementCompound_elements (els : List Element) (bt : String) (d : ℚ) :
    (analyzeMultiElementCompound els bt d).elements = els := by
  by_cases h : (elementOxStatesOf els).filter (fun p => p.2 = []) ≠ []
  · simp only [analyzeMultiElementCompound, if_pos h]
  · simp only [analyzeMultiElementCompound, if_neg h]

theorem analyzeCompound_elements (getEN : Nat → Option ℚ) (l : List Element)
    (counts : List (Element × Nat)) :
    (analyzeCompound getEN l counts).elements = sortElems l := by
  by_cases hc : counts ≠ []
  · rw [analyzeCompound_user getEN l counts hc, analyzeUserFormula_elements]
  · have hc0 : counts = [] := not_ne_iff.mp hc
    subst hc0
    by_cases hng : (sortElems l).filter (fun el => el.category = "noble gas") = []
    · by_cases hen : ((sortElems l).map fun el => getEN el.atomicNumber).any
          (fun en => en = none) = true
      · rw [analyzeCompound_missingEN getEN l hng hen]
      · rw [analyzeCompound_dispatch getEN l hng (eq_false_of_ne_true hen)]
        split
        · next e1 e2 heq => rw [analyzeBinaryCompound_elements]; exact heq.symm
        · rw [analyzeMultiElementCompound_elements]
    · rw [analyzeCompound_noble getEN l (by simpa using hng)]

/-- **C6** For every input element list with pairwise-distinct atomic numbers
and every permutation of it (same optional user counts), the analysis lists
`elements` sorted ascending by atomic number, and the two runs return
identical records — identical candidate sequence included: the output is a
function of the element set, not of the input order. -/
theorem order_independence (getEN : Nat → Option ℚ) (l l' : List Element)
    (counts : List (Element × Nat)) (hperm : l'.Perm l) (hnd : keysNodup l) :
    ((analyzeCompound getEN l counts).elements).Sorted elemLE ∧
      (analyzeCompound getEN l counts).elements = sortElems l ∧
      analyzeCompound getEN l' counts = analyzeCompound getEN l counts := by
  have hnd' : keysNodup l' := ((hperm.map (fun e => e.atomicNumber)).symm).nodup hnd
  have hsort : sortElems l' = sortElems l := sortElems_eq_of_perm hperm hnd'
  refine ⟨?_, analyzeCompound_elements getEN l counts, ?_⟩
  · rw [analyzeCompound_elements]
    exact sortElems_sorted l
  · simp only [analyzeCompound, hsort]

/-- Witness for `order_independence`: Hydrogen/Oxygen in both orders. -/
theorem order_independence_witness :
    ((analyzeCompound enTable [elemH, elemO] []).elements).Sorted elemLE ∧
      (analyzeCompound enTable [elemH, elemO] []).elements = sortElems [elemH, elemO] ∧
      analyzeCompound enTable [elemO, elemH] [] = analyzeCompound enTable [elemH, elemO] [] :=
  order_independence enTable [elemH, elemO] [elemO, elemH] [] (by decide) (by decide)

/-! ### The pairwise fallback (C8) -/

theorem foldl_append_of {α : Type} (f : α → List Candidate) :
    ∀ (l : List α) (acc : List Candidate),
      l.foldl (fun b x => b ++ f x) acc = acc ++ l.flatMap f := by
  intro l
  induction l with
  | nil => simp
  | cons x rest ih =>
      intro acc
      rw [List.foldl_cons, ih, List.flatMap_cons, List.append_assoc]

theorem pairFold_eq (ei ej : Element) (nzi nzj : List Int) (fs : List Candidate) :
    nzi.foldl (fun a oxi => nzj.foldl (fun b oxj =>
        if oppositeSign oxi oxj then b ++ [mkFallbackCand ei ej oxi oxj] else b) a) fs =
      fs ++ nzi.flatMap fun oxi => nzj.flatMap fun oxj =>
        if oppositeSign oxi oxj then [mkFallbackCand ei ej oxi oxj] else [] := by
  have hinner : ∀ (oxi : Int),
      (fun (b : List Candidate) (oxj : Int) =>
        if oppositeSign oxi oxj then b ++ [mkFallbackCand ei ej oxi oxj] else b) =
      fun b oxj => b ++ (if oppositeSign oxi oxj then [mkFallbackCand ei ej oxi oxj] else []) := by
    intro oxi
    funext b oxj
    by_cases h : oppositeSign oxi oxj <;> simp [h]
  have houter : (fun (a : List Candidate) (oxi : Int) => nzj.foldl (fun b oxj =>
      if oppositeSign oxi oxj then b ++ [mkFallbackCand ei ej oxi oxj] else b) a) =
      fun a oxi => a ++ nzj.flatMap fun oxj =>
        if oppositeSign oxi oxj then [mkFallbackCand ei ej oxi oxj] else [] := by
    funext a oxi
    rw [hinner oxi, foldl_append_of]
  rw [houter, foldl_append_of]

theorem fallbackInner_all (P : Candidate → Prop) (ei : Element) (nzi : List Int) :
    ∀ (eos : List (Element × List Int)) (fs : List Candidate),
      (∀ c ∈ fs, P c) →
      (∀ ej nzj oxi oxj, (ej, nzj) ∈ eos → oxi ∈ nzi → oxj ∈ nzj →
        oppositeSign oxi oxj = true → P (mkFallbackCand ei ej oxi oxj)) →
      ∀ c ∈ fallbackInner ei nzi eos fs, P c := by
  intro eos
  induction eos with
  | nil =>
      intro fs hfs _ c hc
      simp only [fallbackInner] at hc
      exact hfs c hc
  | cons hd rest ih =>
      obtain ⟨ej, nzj⟩ := hd
      intro fs hfs hmk c hc
      simp only [fallbackInner] at hc
      by_cases hlen : fs.length < 10
      · rw [if_pos hlen] at hc
        refine ih _ ?_ ?_ c hc
        · intro c' hc'
          rw [pairFold_eq] at hc'
          rcases List.mem_append.mp hc' with h | h
          · exact hfs c' h
          · rw [List.mem_flatMap] at h
            obtain ⟨oxi, hoxi, h⟩ := h
            rw [List.mem_flatMap] at h
            obtain ⟨oxj, hoxj, h⟩ := h
            by_cases hopp : oppositeSign oxi oxj
            · rw [if_pos hopp] at h
              rw [List.mem_singleton] at h
              subst h
              exact hmk ej nzj oxi oxj (List.mem_cons_self _ _) hoxi hoxj hopp
            · rw [if_neg hopp] at h
              cases h
        · intro ej' nzj' oxi oxj hmem hoxi hoxj hopp
          exact hmk ej' nzj' oxi oxj (List.mem_cons_of_mem _ hmem) hoxi hoxj hopp
      · rw [if_neg hlen] at hc
        exact hfs c hc

theorem fallbackPairs_all (P : Candidate → Prop) :
    ∀ (eos : List (Element × List Int)) (fs : List Candidate),
      (∀ c ∈ fs, P c) →
      (∀ ei nzi ej nzj oxi oxj, [(ei, nzi), (ej, nzj)].Sublist eos → oxi ∈ nzi → oxj ∈ nzj →
        oppositeSign oxi oxj = true → P (mkFallbackCand ei ej oxi oxj)) →
      ∀ c ∈ fallbackPairs eos fs, P c := by
  intro eos
  induction eos with
  | nil =>
      intro fs hfs _ c hc
      simp only [fallbackPairs] at hc
      exact hfs c hc
  | cons hd rest ih =>
      obtain ⟨ei, nzi⟩ := hd
      intro fs hfs hmk c hc
      simp only [fallbackPairs] at hc
      by_cases hlen : fs.length < 10
      · rw [if_pos hlen] at hc
        refine ih _ ?_ ?_ c hc
        · refine fallbackInner_all P ei nzi rest fs hfs ?_
          intro ej nzj oxi oxj hmem hoxi hoxj hopp
          refine hmk ei nzi ej nzj oxi oxj ?_ hoxi hoxj hopp
          exact List.Sublist.cons₂ _ (List.singleton_sublist.mpr hmem)
        · intro ei' nzi' ej' nzj' oxi oxj hsub hoxi hoxj hopp
          exact hmk ei' nzi' ej' nzj' oxi oxj (List.Sublist.cons _ hsub) hoxi hoxj hopp
      · rw [if_neg hlen] at hc
        exact hfs c hc

theorem analyzeMultiElementCompound_formulas_fallback (els : List Element)
    (bt : String) (d : ℚ)
    (hmiss : (elementOxStatesOf els).filter (fun p => p.2 = []) = [])
    (hprim : primaryFormulas els = []) :
    (analyzeMultiElementCompound els bt d).formulas = (fallbackFormulas els).take 20 := by
  have h1 : ¬ ((elementOxStatesOf els).filter (fun p => p.2 = []) ≠ []) := by simp [hmiss]
  simp only [analyzeMultiElementCompound, if_neg h1, hprim, reduceIte]

/-- **C8 (amended)** For every multi-element input (3+ elements, no noble gas,
electronegativity and nonzero oxidation states available) on which the primary
preferred-oxidation-state search yields zero candidates, every surfaced
candidate comes from the pairwise fallback — a two-element GCD-subscript
formula from an opposite-sign combination of one oxidation state from each of
two elements, all other counts 0 — and at most 20 are surfaced.  (The
fallback's cap of 10 only stops new element pairs from starting; a single
pair's combinations are pushed without an intra-pair guard, so more than 10
can be emitted — see `fallback_pairwise_cex`.) -/
theorem fallback_pairwise (getEN : Nat → Option ℚ) (l : List Element)
    (hlen : 3 ≤ l.length)
    (hng : ∀ e ∈ l, e.category ≠ "noble gas")
    (hen : ∀ e ∈ l, getEN e.atomicNumber ≠ none)
    (hz : ∀ e ∈ l, nonZeroOx e ≠ [])
    (hprim : primaryFormulas (sortElems l) = []) :
    (∀ c ∈ (analyzeCompound getEN l []).formulas,
        IsFallbackPair (elementOxStatesOf (sortElems l)) c) ∧
      (analyzeCompound getEN l []).formulas.length ≤ 20 := by
  have hngf : (sortElems l).filter (fun el => el.category = "noble gas") = [] := by
    rw [List.filter_eq_nil_iff]
    intro a ha
    simpa using hng a (mem_sortElems.mp ha)
  have henf : ((sortElems l).map fun el => getEN el.atomicNumber).any
      (fun en => en = none) = false := by
    rw [List.any_eq_false]
    intro x hx
    rw [List.mem_map] at hx
    obtain ⟨e, he, rfl⟩ := hx
    simpa using hen e (mem_sortElems.mp he)
  have hmiss : (elementOxStatesOf (sortElems l)).filter (fun p => p.2 = []) = [] := by
    rw [List.filter_eq_nil_iff]
    intro p hp
    simp only [elementOxStatesOf, List.mem_map] at hp
    obtain ⟨e, he, rfl⟩ := hp
    simpa using hz e (mem_sortElems.mp he)
  rw [analyzeCompound_dispatch getEN l hngf henf]
  have hsplit : (match sortElems l with
      | [e1, e2] => analyzeBinaryCompound e1 e2
          (classifyBond (maxListQ (pairDiffs ((sortElems l).filterMap fun el => getEN el.atomicNumber))))
          (maxListQ (pairDiffs ((sortElems l).filterMap fun el => getEN el.atomicNumber)))
      | _ => analyzeMultiElementCompound (sortElems l)
          (classifyBond (maxListQ (pairDiffs ((sortElems l).filterMap fun el => getEN el.atomicNumber))))
          (maxListQ (pairDiffs ((sortElems l).filterMap fun el => getEN el.atomicNumber)))) =
      analyzeMultiElementCompound (sortElems l)
          (classifyBond (maxListQ (pairDiffs ((sortElems l).filterMap fun el => getEN el.atomicNumber))))
          (maxListQ (pairDiffs ((sortElems l).filterMap fun el => getEN el.atomicNumber))) := by
    split
    · next e1 e2 heq =>
        exfalso
        have h2 : (sortElems l).length = 2 := by rw [heq]; rfl
        rw [(sortElems_perm l).length_eq] at h2
        omega
    · rfl
  rw [hsplit, analyzeMultiElementCompound_formulas_fallback _ _ _ hmiss hprim]
  constructor
  · intro c hc
    have hc' : c ∈ fallbackFormulas (sortElems l) := List.mem_of_mem_take hc
    refine fallbackPairs_all (IsFallbackPair (elementOxStatesOf (sortElems l)))
      (elementOxStatesOf (sortElems l)) [] (by intro c' hc'; cases hc') ?_ c hc'
    intro ei nzi ej nzj oxi oxj hsub hoxi hoxj hopp
    exact ⟨ei, nzi, ej, nzj, oxi, oxj, hsub, hoxi, hoxj, hopp, rfl⟩
  · rw [List.length_take]
    exact min_le_left _ _

set_option maxRecDepth 200000 in
set_option maxHeartbeats 2000000 in
/-- **C8 (counterexample)** The fallback is not capped at 10 candidates: once
a pair's state loops start they run to completion, so this input emits
6 + 6 = 12 fallback candidates (the guard only blocks the third pair). -/
theorem fallback_pairwise_cex :
    primaryFormulas (sortElems [elemT1, elemT2, elemT3]) = [] ∧
      ¬ ((analyzeCompound enOne [elemT1, elemT2, elemT3] []).formulas.length ≤ 10) := by
  constructor
  · with_unfolding_all decide
  · with_unfolding_all decide

set_option maxRecDepth 200000 in
set_option maxHeartbeats 2000000 in
/-- Witness for `fallback_pairwise`: the same synthetic input, on which the
primary search provably yields zero candidates. -/
theorem fallback_pairwise_witness :
    (∀ c ∈ (analyzeCompound enOne [elemT1, elemT2, elemT3] []).formulas,
        IsFallbackPair (elementOxStatesOf (sortElems [elemT1, elemT2, elemT3])) c) ∧
      (analyzeCompound enOne [elemT1, elemT2, elemT3] []).formulas.length ≤ 20 :=
  fallback_pairwise enOne [elemT1, elemT2, elemT3] (by decide) (by decide)
    (by intro e he; simp [enOne]) (by decide) (by with_unfolding_all decide)

/-! ### Every emitted assignment is charge-balanced (C1) -/

theorem assignSum_cons (t : String × Int × Nat) (l : List (String × Int × Nat)) :
    assignSum (t :: l) = t.2.1 * (t.2.2 : Int) + assignSum l := by
  simp [assignSum]

theorem dotPC_append : ∀ (ps : List Int) (cs : List Nat) (p : Int) (c : Nat),
    ps.length = cs.length →
    dotPC (ps ++ [p]) (cs ++ [c]) = dotPC ps cs + p * (c : Int) := by
  intro ps
  induction ps with
  | nil =>
      intro cs p c h
      have hc : cs = [] := List.length_eq_zero.mp h.symm
      subst hc
      simp [dotPC]
  | cons q qs ih =>
      intro cs p c h
      cases cs with
      | nil => simp at h
      | cons d ds =>
          have h' : qs.length = ds.length := by simpa using h
          rw [List.cons_append, List.cons_append]
          show q * (d : Int) + dotPC (qs ++ [p]) (ds ++ [c]) =
            q * (d : Int) + dotPC qs ds + p * (c : Int)
          rw [ih ds p c h']
          ring

theorem emit_assignSum : ∀ (elems : List Element) (prefs : List Int) (acc : List Nat),
    prefs.length = elems.length → acc.length = elems.length →
    assignSum (((zip3 elems prefs acc).filter fun t => t.2.2 > 0).map
      fun t => (t.1.symbol, t.2.1, t.2.2)) = dotPC prefs acc := by
  intro elems
  induction elems with
  | nil =>
      intro prefs acc h1 h2
      have hp : prefs = [] := List.length_eq_zero.mp (by simpa using h1)
      have hc : acc = [] := List.length_eq_zero.mp (by simpa using h2)
      subst hp
      subst hc
      simp [zip3, assignSum, dotPC]
  | cons e es ih =>
      intro prefs acc h1 h2
      cases prefs with
      | nil => simp at h1
      | cons p ps =>
          cases acc with
          | nil => simp at h2
          | cons c cs =>
              have h1' : ps.length = es.length := by simpa using h1
              have h2' : cs.length = es.length := by simpa using h2
              simp only [zip3, List.filter_cons]
              by_cases hc : c > 0
              · rw [if_pos (by simpa using hc)]
                simp only [List.map_cons, assignSum_cons]
                rw [ih ps cs h1' h2']
                simp [dotPC]
              · rw [if_neg (by simpa using hc)]
                rw [ih ps cs h1' h2']
                have hc0 : c = 0 := by omega
                subst hc0
                simp [dotPC]

theorem fbfStep_all_balanced (elems : List Element) (prefs : List Int)
    (hlen : prefs.length = elems.length) :
    ∀ (rest dp : List Int) (acc : List Nat) (charge : Int) (st : MultiState),
      prefs = dp ++ rest → acc.length = dp.length → charge = dotPC dp acc →
      (∀ c ∈ st.formulas, assignSum c.assignment = 0) →
      ∀ c ∈ (fbfStep elems prefs rest acc charge st).formulas,
        assignSum c.assignment = 0 := by
  intro rest
  induction rest with
  | nil =>
      intro dp acc charge st hdp hacc hch hst c hc
      rw [List.append_nil] at hdp
      subst hdp
      simp only [fbfStep] at hc
      by_cases h1 : st.testedCount ≥ maxFormulas
      · rw [if_pos h1] at hc
        exact hst c hc
      · rw [if_neg h1] at hc
        by_cases h2 : charge = 0 ∧ acc.any (fun c => c > 0)
        · rw [if_pos h2] at hc
          by_cases h3 : ((zip3 elems prefs acc).filter fun t => t.2.2 > 0).length ≥ 2
          · rw [if_pos h3] at hc
            rcases List.mem_append.mp hc with h | h
            · exact hst c h
            · rw [List.mem_singleton] at h
              subst h
              rw [emit_assignSum elems prefs acc hlen (hacc.trans hlen), ← hch]
              exact h2.1
          · rw [if_neg h3] at hc
            exact hst c hc
        · rw [if_neg h2] at hc
          exact hst c hc
  | cons p rest' ih =>
      intro dp acc charge st hdp hacc hch hst c hc
      simp only [fbfStep] at hc
      by_cases h1 : st.testedCount ≥ maxFormulas
      · rw [if_pos h1] at hc
        exact hst c hc
      · rw [if_neg h1] at hc
        have hfold : ∀ (counts : List Nat) (st1 : MultiState),
            (∀ c' ∈ st1.formulas, assignSum c'.assignment = 0) →
            ∀ c' ∈ (counts.foldl (fun st1 (count : Nat) =>
              if st1.testedCount < maxFormulas then
                if rest' = [] then
                  if charge + p * (count : Int) = 0 then
                    fbfStep elems prefs rest' (acc ++ [count]) (charge + p * (count : Int)) st1
                  else st1
                else
                  if (charge + p * (count : Int)).natAbs ≤
                      rest'.length * maxAtoms * maxAbsList rest' then
                    fbfStep elems prefs rest' (acc ++ [count]) (charge + p * (count : Int)) st1
                  else st1
              else st1) st1).formulas, assignSum c'.assignment = 0 := by
          intro counts
          induction counts with
          | nil =>
              intro st1 h c' hc'
              exact h c' hc'
          | cons n ns ihn =>
              intro st1 h c' hc'
              rw [List.foldl_cons] at hc'
              refine ihn _ ?_ c' hc'
              intro c'' hc''
              simp only [] at hc''
              have hstep : ∀ (st2 : MultiState),
                  (∀ x ∈ st2.formulas, assignSum x.assignment = 0) →
                  ∀ x ∈ (fbfStep elems prefs rest' (acc ++ [n])
                    (charge + p * (n : Int)) st2).formulas, assignSum x.assignment = 0 := by
                intro st2 h2
                refine ih (dp ++ [p]) (acc ++ [n]) _ _ ?_ ?_ ?_ h2
                · rw [hdp, List.append_assoc]
                  rfl
                · simp [hacc]
                · rw [dotPC_append dp acc p n hacc.symm, ← hch]
              by_cases hb1 : st1.testedCount < maxFormulas
              · rw [if_pos hb1] at hc''
                by_cases hb2 : rest' = []
                · rw [if_pos hb2] at hc''
                  by_cases hb3 : charge + p * (n : Int) = 0
                  · rw [if_pos hb3] at hc''
                    exact hstep st1 h c'' hc''
                  · rw [if_neg hb3] at hc''
                    exact h c'' hc''
                · rw [if_neg hb2] at hc''
                  by_cases hb3 : (charge + p * (n : Int)).natAbs ≤
                      rest'.length * maxAtoms * maxAbsList rest'
                  · rw [if_pos hb3] at hc''
                    exact hstep st1 h c'' hc''
                  · rw [if_neg hb3] at hc''
                    exact h c'' hc''
              · rw [if_neg hb1] at hc''
                exact h c'' hc''
        exact hfold (List.range (maxAtoms + 1)) st hst c hc

theorem validate_balanced_inv (ecs : List (Element × Nat)) (a : List (String × Int × Nat)) :
    validateChargeBalance ecs = .balanced a →
    findBalance (ecs.map fun ec => (ec.1, ec.2, nonZeroOxV ec.1)) 0 [] = some a := by
  simp only [validateChargeBalance]
  by_cases hempty : (ecs.map fun ec => (ec.1, ec.2, nonZeroOxV ec.1)).any
      (fun eos => eos.2.2 = []) = true
  · rw [if_pos hempty]
    intro h
    cases h
  · rw [if_neg hempty]
    cases hfb : findBalance (ecs.map fun ec => (ec.1, ec.2, nonZeroOxV ec.1)) 0 [] with
    | some b =>
        intro h
        simp only [] at h
        injection h with h
        subst h
        rfl
    | none =>
        intro h
        simp only [] at h
        cases h

theorem binaryFormulas_all_balanced (e1 e2 : Element) (nz1 nz2 : List Int)
    (h1 : ∀ a ∈ nz1, a ≠ 0) (h2 : ∀ b ∈ nz2, b ≠ 0) :
    ∀ c ∈ binaryFormulas e1 e2 nz1 nz2, assignSum c.assignment = 0 := by
  intro c hc
  rw [binaryFormulas_eq] at hc
  rw [List.mem_flatMap] at hc
  obtain ⟨a, ha, hc⟩ := hc
  rw [List.mem_flatMap] at hc
  obtain ⟨b, hb, hc⟩ := hc
  by_cases hs : sameSign a b
  · rw [if_pos hs] at hc
    cases hc
  · rw [if_neg hs] at hc
    rw [List.mem_singleton] at hc
    subst hc
    exact mkBinaryCand_balanced e1 e2 (h1 a ha) (h2 b hb) (Bool.eq_false_iff.mpr hs)

theorem analyzeBinaryCompound_all_balanced (e1 e2 : Element) (bt : String) (d : ℚ) :
    ∀ c ∈ (analyzeBinaryCompound e1 e2 bt d).formulas, assignSum c.assignment = 0 := by
  by_cases h : nonZeroOx e1 = [] ∨ nonZeroOx e2 = []
  · simp only [analyzeBinaryCompound, if_pos h]
    intro c hc
    exact absurd hc (List.not_mem_nil c)
  · simp only [analyzeBinaryCompound, if_neg h]
    exact binaryFormulas_all_balanced e1 e2 _ _ (mem_nonZeroOx_ne_zero e1)
      (mem_nonZeroOx_ne_zero e2)

theorem analyzeMultiElementCompound_all_balanced (els : List Element) (bt : String) (d : ℚ) :
    ∀ c ∈ (analyzeMultiElementCompound els bt d).formulas, assignSum c.assignment = 0 := by
  by_cases hmiss : (elementOxStatesOf els).filter (fun p => p.2 = []) ≠ []
  · simp only [analyzeMultiElementCompound, if_pos hmiss]
    intro c hc
    exact absurd hc (List.not_mem_nil c)
  · simp only [analyzeMultiElementCompound, if_neg hmiss]
    intro c hc
    have hc' := List.mem_of_mem_take hc
    by_cases hp : primaryFormulas els = []
    · rw [if_pos hp] at hc'
      refine fallbackPairs_all (fun c => assignSum c.assignment = 0) _ []
        (by intro x hx; cases hx) ?_ c hc'
      intro ei nzi ej nzj oxi oxj hsub hoxi hoxj hopp
      exact mkFallbackCand_balanced ei ej hopp
    · rw [if_neg hp] at hc'
      simp only [primaryFormulas] at hc'
      refine fbfStep_all_balanced els (preferredList els) ?_ (preferredList els) [] [] 0
        ⟨[], 0⟩ rfl rfl rfl ?_ c hc'
      · simp [preferredList, elementOxStatesOf]
      · intro x hx
        cases hx

theorem analyzeUserFormula_all_balanced (getEN : Nat → Option ℚ)
    (counts : List (Element × Nat)) (els : List Element) :
    ∀ c ∈ (analyzeUserFormula getEN counts els).formulas, assignSum c.assignment = 0 := by
  by_cases h1 : (sortCounts counts).filter (fun ec => ec.1.category = "noble gas") = []
  · by_cases h2 : ((sortCounts counts).map fun ec => getEN ec.1.atomicNumber).any
        (fun en => en = none) = true
    · rw [analyzeUserFormula_missingEN getEN counts els h1 h2]
      intro c hc
      rw [List.mem_singleton] at hc
      subst hc
      rfl
    · have h2' := eq_false_of_ne_true h2
      cases hv : validateChargeBalance (sortCounts counts) with
      | balanced a =>
          rw [analyzeUserFormula_balanced getEN counts els a h1 h2' hv]
          intro c hc
          rw [List.mem_singleton] at hc
          subst hc
          exact findBalance_sound _ 0 [] a (validate_balanced_inv (sortCounts counts) a hv) rfl
      | unbalanced w =>
          rw [analyzeUserFormula_unbalanced getEN counts els w h1 h2' hv]
          intro c hc
          rw [List.mem_singleton] at hc
          subst hc
          rfl
  · rw [analyzeUserFormula_noble getEN counts els (by simpa using h1)]
    intro c hc
    rw [List.mem_singleton] at hc
    subst hc
    rfl

/-- **C1** Every candidate the engine emits — binary solver, multi-element
primary search, multi-element pairwise fallback, or user-formula validation
with a found balance — satisfies charge balance: the sum over the candidate's
assignment of oxidationState × count is 0 (candidates carrying no assignment
have the empty assignment, whose sum is 0). -/
theorem charge_balance_invariant (getEN : Nat → Option ℚ) (l : List Element)
    (counts : List (Element × Nat)) :
    ∀ c ∈ (analyzeCompound getEN l counts).formulas, assignSum c.assignment = 0 := by
  by_cases hc : counts ≠ []
  · rw [analyzeCompound_user getEN l counts hc]
    exact analyzeUserFormula_all_balanced getEN counts (sortElems l)
  · have hc0 : counts = [] := not_ne_iff.mp hc
    subst hc0
    by_cases hng : (sortElems l).filter (fun el => el.category = "noble gas") = []
    · by_cases hen : ((sortElems l).map fun el => getEN el.atomicNumber).any
          (fun en => en = none) = true
      · rw [analyzeCompound_missingEN getEN l hng hen]
        intro c hcm
        rw [List.mem_singleton] at hcm
        subst hcm
        rfl
      · rw [analyzeCompound_dispatch getEN l hng (eq_false_of_ne_true hen)]
        split
        · exact analyzeBinaryCompound_all_balanced _ _ _ _
        · exact analyzeMultiElementCompound_all_balanced _ _ _
    · rw [analyzeCompound_noble getEN l (by simpa using hng)]
      intro c hcm
      exact absurd hcm (List.not_mem_nil c)

/-- Witness for `charge_balance_invariant`: the `H2O` candidate of the
Hydrogen/Oxygen run (assignment H:+1 ×2, O:−2 ×1) sums to zero. -/
theorem charge_balance_invariant_witness :
    assignSum ((analyzeCompound enTable [elemH, elemO] []).formulas.getD 2 default).assignment = 0 :=
  charge_balance_invariant enTable [elemH, elemO] []
    ((analyzeCompound enTable [elemH, elemO] []).formulas.getD 2 default)
    (by with_unfolding_all decide)
